import Mathlib

/-!
Verification of the claw scraping engine (src/main.rs) against its
natural-language specification.

The Rust source is shallowly embedded below.  External library behaviour
(the `url` crate, `reqwest`, the `scraper` selector engine and the
`robotstxt` matcher) is modelled at its interface:

* a `Url` is modelled as scheme / host / path plus the decoded query-pair
  list (the form-urlencoded codec of the `url` crate is a bijection
  between raw query strings and pair lists, so the pair-level view is the
  faithful observable state);
* the network is modelled as explicit oracle functions: a transport for
  `retry_fetch_html` (the response may depend on the attempt number and
  on the identity profile presented, which is how the profile becomes
  observable), a fetched/parsed page feed for the crawl drivers, a robots
  fetch outcome and a robots matcher verdict for the compliance gate;
* `f64` numeric fields are modelled as exact rationals (`Rat`); every
  numeric value appearing in the claims is exactly representable, and
  the decimal strings the scraper feeds its number parser are plain
  decimal notation, which the rational parser below covers exactly;
* the HTML card is modelled as the record of the texts and attributes the
  selectors extract from it.

Effectful observations (which profile each retry attempt presented, which
pages were fetched, which SSE events were emitted) are returned as
explicit traces.
-/

/-- Substring containment, the model of Rust `str::contains` for string
needles. -/
def containsSubstr (needle hay : String) : Bool :=
  hay.data.tails.any (fun t => needle.data.isPrefixOf t)

/-- Decimal value of a list of ASCII digit characters. -/
def digitsVal (l : List Char) : Nat :=
  l.foldl (fun a c => a * 10 + (c.toNat - 48)) 0

/-- Model of Rust `str::parse::<usize>`: an optional leading plus sign,
then a nonempty run of ASCII digits, rejected on 64-bit overflow. -/
def parseUsize (s : String) : Option Nat :=
  let cs := if s.data.take 1 = ['+'] then s.data.drop 1 else s.data
  if cs ≠ [] ∧ cs.all Char.isDigit then
    if digitsVal cs < 2 ^ 64 then some (digitsVal cs) else none
  else none

/-- Model of Rust `str::parse::<f64>` restricted to plain decimal
notation (optional sign, digits, at most one point, at least one digit):
exactly the shapes the scraper's cleaned numeric tokens take.  The value
is kept as an exact rational. -/
def parseDecimal (tok : List Char) : Option Rat :=
  let sign : Rat := if tok.take 1 = ['-'] then -1 else 1
  let cs := if tok.take 1 = ['-'] ∨ tok.take 1 = ['+'] then
    tok.drop 1 else tok
  let intPart := cs.takeWhile (fun c => c ≠ '.')
  let rest := cs.dropWhile (fun c => c ≠ '.')
  let fracPart := rest.drop 1
  if intPart.all Char.isDigit ∧ fracPart.all Char.isDigit ∧
      intPart ++ fracPart ≠ [] then
    some (sign * ((digitsVal intPart : Rat) +
      (digitsVal fracPart : Rat) / (10 : Rat) ^ fracPart.length))
  else none

/-- Structural splitter: split a character list at every character
satisfying `p`, keeping empty pieces, as Rust `str::split` and this
model's tokenizers do. -/
def splitOnPred (p : Char → Bool) : List Char → List (List Char)
  | [] => [[]]
  | c :: t =>
    let r := splitOnPred p t
    if p c then [] :: r
    else
      match r with
      | [] => [[c]]
      | h :: t2 => (c :: h) :: t2

/-- Model of Rust `str::trim`. -/
def trimChars (l : List Char) : List Char :=
  ((l.dropWhile Char.isWhitespace).reverse.dropWhile Char.isWhitespace).reverse

/-- Decimal digit characters of a natural number, on a fuel budget that
dominates the digit count (structural, so that concrete URLs evaluate).
-/
def natToDigitsAux : Nat → Nat → List Char
  | 0, _ => []
  | fuel + 1, n =>
    if n < 10 then [Char.ofNat (48 + n)]
    else natToDigitsAux fuel (n / 10) ++ [Char.ofNat (48 + n % 10)]

/-- Decimal digit characters of a natural number, the model of Rust
`usize::to_string`. -/
def natToDigits (n : Nat) : List Char :=
  natToDigitsAux (n + 1) n

/-- Model of Rust `usize::to_string`. -/
def natToString (n : Nat) : String :=
  String.mk (natToDigits n)

/-!
## Pager helpers (src/main.rs lines 986-1028)

A `Url` carries its query as the RAW (undecoded) query string, because
`normalize_pager`'s start-page scan reads the raw text
(`q.split('&')`, `strip_prefix("page=")`, parse of the undecoded
value), while its base rebuild and `build_page_url` go through the
decoded pairs (`query_pairs()`) and re-serialize them canonically.
The form-urlencoded codec of the `url` crate is modelled at character
level: percent-decoding of `%XX` and `+`/space, and percent-encoding
of everything outside the codec's safe set (alphanumeric and `*-._`).
This is exact for ASCII queries; characters beyond one byte are kept
as single characters rather than UTF-8 byte runs, which preserves the
codec's round-trip behaviour, the only property the engine relies on.
-/

/-- Hexadecimal digit test, as the percent-decoder uses it. -/
def isHexDigit (c : Char) : Bool :=
  c.isDigit || (decide ('A' ≤ c) && decide (c ≤ 'F'))
    || (decide ('a' ≤ c) && decide (c ≤ 'f'))

/-- Value of a hexadecimal digit character. -/
def hexVal (c : Char) : Nat :=
  if c.isDigit then c.toNat - 48
  else if 'a' ≤ c then c.toNat - 87
  else c.toNat - 55

/-- Uppercase hexadecimal digit character of a value below 16. -/
def hexDigitChar (n : Nat) : Char :=
  if n < 10 then Char.ofNat (48 + n) else Char.ofNat (55 + n)

/-- Form-urlencoded decoding of a raw query fragment: `+` becomes a
space, a valid `%XX` escape becomes the escaped character, and an
invalid escape passes the `%` through. -/
def formDecode : List Char → List Char
  | [] => []
  | '%' :: a :: b :: rest =>
    if isHexDigit a ∧ isHexDigit b then
      Char.ofNat (16 * hexVal a + hexVal b) :: formDecode rest
    else '%' :: formDecode (a :: b :: rest)
  | '+' :: rest => ' ' :: formDecode rest
  | c :: rest => c :: formDecode rest

/-- Model of `url::Url::query_pairs`: split the raw query on `&`, skip
empty pieces, split each piece at the first `=`, and form-decode name
and value. -/
def query_pairs (raw : String) : List (String × String) :=
  ((splitOnPred (fun c => c == '&') raw.data).filter
      (fun seg => seg ≠ [])).map
    (fun seg =>
      (String.mk (formDecode (seg.takeWhile (fun c => c ≠ '='))),
       String.mk (formDecode ((seg.dropWhile (fun c => c ≠ '=')).drop 1))))

/-- Form-urlencoded encoding of one character: space becomes `+`, the
safe set (alphanumeric and asterisk, hyphen, period, underscore) passes
through, anything else below 256 becomes a `%XX` escape. -/
def encodeChar (c : Char) : List Char :=
  if c = ' ' then ['+']
  else if c.isAlphanum ∨ c = '*' ∨ c = '-' ∨ c = '.' ∨ c = '_' then [c]
  else if c.toNat < 256 then
    ['%', hexDigitChar (c.toNat / 16), hexDigitChar (c.toNat % 16)]
  else [c]

/-- Form-urlencoded encoding of a string. -/
def encodeStr (s : String) : List Char :=
  s.data.flatMap encodeChar

/-- The serialized segment of one query pair. -/
def segOf (kv : String × String) : List Char :=
  encodeStr kv.1 ++ '=' :: encodeStr kv.2

/-- Raw query segments joined by ampersands. -/
def joinSegs : List (List Char) → List Char
  | [] => []
  | [seg] => seg
  | seg :: rest => seg ++ '&' :: joinSegs rest

/-- Model of the `url` crate's `query_pairs_mut().clear().extend_pairs`
re-serialization: each pair encoded as `name=value`, joined by `&`. -/
def serializePairs (qp : List (String × String)) : String :=
  String.mk (joinSegs (qp.map segOf))

/-- Model of a parsed `url::Url`: scheme, optional host, path and the
raw query string. -/
structure Url where
  scheme : String
  host : Option String
  path : String
  query : Option String
deriving DecidableEq, Repr

/-- One step of `normalize_pager`'s scan over the raw `&`-separated
query segments (main.rs 994-1001): a segment with the literal prefix
`page=` whose raw remainder parses as `usize` replaces the start page
with its value clamped to at least 1. -/
def rawPageScanStep (acc : Nat) (seg : List Char) : Nat :=
  if "page=".data.isPrefixOf seg then
    match parseUsize (String.mk (seg.drop "page=".data.length)) with
    | some n => Nat.max n 1
    | none => acc
  else acc

/-- Model of `normalize_pager` (main.rs 990-1015): read the start page
by scanning the RAW query text for `page=` segments (default 1, minimum
1, last parsable one wins), and rebuild the base query from the decoded
pairs with every `page` pair removed, canonically re-serialized. -/
def normalize_pager (u : Url) : Url × Nat :=
  let start_page :=
    (splitOnPred (fun c => c == '&') (u.query.getD "").data).foldl
      rawPageScanStep 1
  let qp := (query_pairs (u.query.getD "")).filter (fun kv => kv.1 ≠ "page")
  ({ u with query := some (serializePairs qp) }, start_page)

/-- Model of `build_page_url` (main.rs 1017-1028): re-serialize the
decoded query pairs with `("page", page)` appended.  The Rust function
returns `Result` but its body has no fallible operation, so it always
returns `Ok`. -/
def build_page_url (base : Url) (page : Nat) : Except String Url :=
  Except.ok { base with query := some (serializePairs
    (query_pairs (base.query.getD "") ++ [("page", natToString page)])) }

/-- The effective page of a URL under claim C8's own reading, stated
from the claim's words for comparison with the pager's raw-text scan:
the value of the last parsable DECODED page-number query parameter,
minimum 1, or 1 when that parameter is absent or unparsable. -/
def claimed_effective_page (u : Url) : Nat :=
  (query_pairs (u.query.getD "")).foldl
    (fun acc kv =>
      if kv.1 = "page" then
        match parseUsize kv.2 with
        | some n => Nat.max n 1
        | none => acc
      else acc) 1

/-!
## Card parser / normalizer (src/main.rs lines 870-984)
-/

/-- Model of the serialized `PriceHit` record (main.rs 38-48) with `f64`
fields as exact rationals. -/
structure PriceHit where
  id : String
  listing_url : String
  title : String
  price_numeric : Option Rat
  currency : Option String
  raw_price : String
  sqm : Option Rat
  price_per_m2 : Option Rat
deriving DecidableEq, Repr

/-- Model of `extract_id`'s first branch (main.rs 928-931): the run of
ASCII digits immediately after the last occurrence of the marker, if the
marker occurs. -/
def lastMarkerTail (marker : List Char) : List Char → Option (List Char)
  | [] => if marker = [] then some [] else none
  | c :: t =>
    match lastMarkerTail marker t with
    | some r => some r
    | none =>
      if marker.isPrefixOf (c :: t) then some ((c :: t).drop marker.length)
      else none

/-- Model of `extract_id` (main.rs 927-940): digits following the last
occurrence of the literal marker, else the trailing digit run of the
URL. -/
def extract_id (url : String) : String :=
  match lastMarkerTail "-oglas-".data url.data with
  | some tail => String.mk (tail.takeWhile Char.isDigit)
  | none => String.mk ((url.data.reverse.takeWhile Char.isDigit).reverse)

/-- Model of `extract_sqm_from_li` (main.rs 942-954) applied to the text
of the description element, if that element exists: split on whitespace,
comma, semicolon or newline, drop periods, turn commas into periods, and
return the first token that parses as a number. -/
def extract_sqm (descText : Option String) : Option Rat :=
  match descText with
  | none => none
  | some txt =>
    (splitOnPred
        (fun c => c.isWhitespace || c == ',' || c == ';' || c == '\n')
        txt.data).findSome?
      (fun token => parseDecimal
        ((token.filter (fun c => c ≠ '.')).map
          (fun c => if c = ',' then '.' else c)))

/-- Model of `normalize_price` (main.rs 956-984): currency from the euro
sign, else from a case-insensitive "kn" substring; numeric value by
keeping digits, commas and periods, deleting periods, turning commas
into periods, and parsing the first whitespace-delimited token that
parses; no numeric value when the input has no ASCII digit. -/
def normalize_price (s : String) : Option Rat × Option String :=
  let cur : Option String :=
    if s.data.contains '€' then some "EUR"
    else if containsSubstr "kn" (String.mk (s.data.map Char.toLower)) then
      some "HRK"
    else none
  if ¬ s.data.any Char.isDigit then (none, cur)
  else
    let mapped := s.data.map
      (fun (c : Char) => if c.isDigit ∨ c = ',' ∨ c = '.' then c else ' ')
    let noDots := mapped.filter (fun (c : Char) => c ≠ '.')
    let digits := noDots.map (fun (c : Char) => if c = ',' then '.' else c)
    let n := ((splitOnPred Char.isWhitespace digits).filter
      (fun t => t ≠ [])).findSome? parseDecimal
    (n, cur)

/-- Model of the extraction results the `scraper` selectors deliver for
one `li.EntityList-item` card: the title link's text and `href` within
the narrowed entity-body scope (or the whole card), the price element's
text, the card's `data-href` attribute, and the description element's
text as seen from the card and from the scope. -/
structure Card where
  titleText : Option String
  priceText : Option String
  hrefAttr : Option String
  dataHref : Option String
  descLi : Option String
  descScope : Option String
deriving DecidableEq, Repr

/-- Model of `parse_card` (main.rs 870-925).  `join` models
`page_url.join`: resolving a candidate link against the page URL, `none`
on failure. -/
def parse_card (join : String → Option String) (c : Card) : Option PriceHit :=
  let title := String.mk (trimChars (c.titleText.getD "").data)
  let raw_price := String.mk (trimChars (c.priceText.getD "").data)
  let href := match c.hrefAttr with
    | some h => some h
    | none => c.dataHref
  let listing_url := (href.bind join).getD ""
  if listing_url = "" ∨ raw_price = "" then none
  else
    let id := extract_id listing_url
    let pc := normalize_price raw_price
    let sqm := match extract_sqm c.descLi with
      | some v => some v
      | none => extract_sqm c.descScope
    let price_per_m2 := match pc.1, sqm with
      | some p, some s => if 0 < s then some (p / s) else none
      | _, _ => none
    some { id := id, listing_url := listing_url, title := title,
           price_numeric := pc.1, currency := pc.2, raw_price := raw_price,
           sqm := sqm, price_per_m2 := price_per_m2 }

/-!
## Fetch engine (src/main.rs lines 744-864)
-/

/-- Identity profile presented to the server (main.rs 744-748). -/
inductive Profile
  | Desktop
  | Mobile
deriving DecidableEq, Repr

/-- The profile flip performed after a heuristically rejected response
(main.rs 850-853). -/
def flip_profile : Profile → Profile
  | Profile.Desktop => Profile.Mobile
  | Profile.Mobile => Profile.Desktop

/-- Outcome of one transport send: a response body (after `.text()`, with
errors defaulted to the empty string) or a transport error. -/
inductive FetchResp
  | ok (body : String)
  | err (msg : String)
deriving DecidableEq, Repr

/-- The content-validity heuristic (main.rs 845): the decoded body is
longer than 4000 bytes and contains the listing marker substring. -/
def body_valid (s : String) : Bool :=
  decide (s.utf8ByteSize > 4000) && containsSubstr "EntityList-item" s

/-- One state of the retry loop of `retry_fetch_html` (main.rs 818-864),
unrolled on the remaining attempt budget `fuel`; `attempts` counts the
attempts already made and indexes the transport oracle, which may react
to the attempt number and to the profile presented.  Returns the loop's
result together with the trace of profiles presented, one per attempt
actually made. -/
def retry_go (t : Nat → Profile → FetchResp) :
    Nat → Nat → Option String → Profile → Except String String × List Profile
  | 0, _, lastErr, _ =>
    (Except.error (lastErr.getD "failed to fetch page after retries"), [])
  | fuel + 1, attempts, lastErr, profile =>
    match t attempts profile with
    | FetchResp.ok text =>
      if body_valid text then (Except.ok text, [profile])
      else
        let r := retry_go t fuel (attempts + 1) lastErr (flip_profile profile)
        (r.1, profile :: r.2)
    | FetchResp.err e =>
      let r := retry_go t fuel (attempts + 1) (some e) profile
      (r.1, profile :: r.2)

/-- Model of `retry_fetch_html` (main.rs 818-864): at most 5 attempts,
starting with the desktop profile and no recorded error. -/
def retry_fetch_html (t : Nat → Profile → FetchResp) :
    Except String String × List Profile :=
  retry_go t 5 0 none Profile.Desktop

/-!
## Batch driver `scrape_prices` (src/main.rs lines 591-738)

The fetch-and-parse of one page (warmup, `retry_fetch_html`, HTML
parsing through the selectors) is abstracted as a feed oracle from the
page number to either the propagated fetch error or the two card lists
the two selector passes would parse: the primary nested-list pass and
the generic fallback pass.
-/

/-- Hard page cap (main.rs 591). -/
def HARD_PAGE_CAP : Nat := 200

/-- The allow-list of hostnames (main.rs 602). -/
def allowedHosts : List String := ["www.njuskalo.hr", "njuskalo.hr"]

/-- The robots text actually used: the fetched document, or the empty
string when the robots fetch failed (main.rs 609-612). -/
def robots_text (r : Except String String) : String :=
  match r with
  | Except.ok s => s
  | Except.error _ => ""

/-- Crawl summary (main.rs 50-55). -/
structure Meta where
  page_count : Nat
  total_hits : Nat
  next_url : Option Url
deriving DecidableEq, Repr

/-- Model of `register_hit` (main.rs 732-738) with the `HashSet` of seen
identifiers as a list: a hit with a non-empty, already-seen identifier
is dropped; any other hit is appended, a non-empty identifier being
recorded as seen. -/
def register_hit (hit : PriceHit) (hits : List PriceHit) (seen : List String) :
    Bool × List PriceHit × List String :=
  if hit.id ≠ "" ∧ seen.contains hit.id then (false, hits, seen)
  else if hit.id = "" then (true, hits ++ [hit], seen)
  else (true, hits ++ [hit], seen ++ [hit.id])

/-- One selector pass of the driver loop: register every parsed card in
order, returning the new accumulator, seen-set and the number of newly
registered hits (main.rs 677-702). -/
def register_all (l : List PriceHit) (hits : List PriceHit) (seen : List String) :
    List PriceHit × List String × Nat :=
  match l with
  | [] => (hits, seen, 0)
  | h :: rest =>
    match register_hit h hits seen with
    | (ok, hits1, seen1) =>
      match register_all rest hits1 seen1 with
      | (hits2, seen2, c) => (hits2, seen2, (if ok then 1 else 0) + c)

/-- The page feed oracle: page number to fetch error or the two parsed
card lists (primary pass, fallback pass). -/
def Feed : Type := Nat → Except String (List PriceHit × List PriceHit)

/-- The crawl loop of `scrape_prices` (main.rs 638-722), unrolled on the
remaining page budget `fuel` (the loop guard `pages >= max_pages` holds
exactly when the fuel is exhausted, so `fuel + pages = max_pages`
throughout).  Returns the accumulated hits and summary (or the first
fatal error) together with the trace of page numbers actually fetched. -/
def scrape_go (feed : Feed) (base : Url) :
    Nat → Nat → Nat → List PriceHit → List String → Option Url →
    (Except String (List PriceHit × Meta)) × List Nat
  | 0, pages, _, hits, _, lastNext =>
    (Except.ok (hits, { page_count := pages, total_hits := hits.length,
                        next_url := lastNext }), [])
  | fuel + 1, pages, page, hits, seen, _lastNext =>
    match build_page_url base page with
    | Except.error _ => (Except.error "build page url failed", [])
    | Except.ok _pageUrl =>
      match feed page with
      | Except.error e => (Except.error e, [page])
      | Except.ok (primary, fallback) =>
        match register_all primary hits seen with
        | (hits1, seen1, c1) =>
          match (if c1 = 0 then register_all fallback hits1 seen1
                 else (hits1, seen1, 0)) with
          | (hits2, seen2, c2) =>
            if c1 + c2 = 0 then
              (Except.ok (hits2, { page_count := pages + 1,
                                   total_hits := hits2.length,
                                   next_url := none }), [page])
            else
              match build_page_url base (page + 1) with
              | Except.error _ => (Except.error "build page url failed", [page])
              | Except.ok nextUrl =>
                let r := scrape_go feed base fuel (pages + 1) (page + 1)
                  hits2 seen2 (some nextUrl)
                (r.1, page :: r.2)

/-- Model of `scrape_prices` (main.rs 593-730).  `parsed` is the outcome
of `Url::parse` on the start URL; `robotsFetch` the outcome of fetching
robots.txt; `matcher` the robots-matcher verdict on a given robots text
for this URL under the "Mozilla" agent; `feed` the per-page fetch/parse
oracle; `page_range` the optional page cap. -/
def scrape_prices (parsed : Option Url) (robotsFetch : Except String String)
    (matcher : String → Bool) (feed : Feed) (page_range : Option Nat) :
    (Except String (List PriceHit × Meta)) × List Nat :=
  match parsed with
  | none => (Except.error "invalid url", [])
  | some u =>
    match u.host with
    | none => (Except.error "url has no host", [])
    | some host =>
      if allowedHosts.contains host then
        if matcher (robots_text robotsFetch) then
          match normalize_pager u with
          | (base, page) =>
            scrape_go feed base (page_range.getD HARD_PAGE_CAP) 0 page [] [] none
        else (Except.error "robots.txt disallows this URL", [])
      else (Except.error "domain not in whitelist", [])

/-!
## Streaming driver `scrape_stream` (src/main.rs lines 119-312)
-/

/-- One server-sent event, as emitted on the stream channel. -/
inductive SEvent
  | start (origin : String) (max_pages : Nat)
  | page (page : Nat) (url : Url) (count : Nat) (hits : List PriceHit) (total : Nat)
  | done (pages : Nat) (total_hits : Nat)
  | error (msg : String)
deriving DecidableEq, Repr

/-- The streaming crawl loop (main.rs 195-298), unrolled on the
remaining page budget like `scrape_go`.  Parsed cards are emitted as-is:
the streaming loop has no dedup register.  Every visited page emits a
`page` event (also the final empty one), followed by `done` when that
page was empty or the cap is reached, or `error` on a fetch failure. -/
def stream_go (feed : Feed) (base : Url) :
    Nat → Nat → Nat → Nat → List SEvent
  | 0, pages, _, total => [SEvent.done pages total]
  | fuel + 1, pages, page, total =>
    match build_page_url base page with
    | Except.error e => [SEvent.error e]
    | Except.ok pageUrl =>
      match feed page with
      | Except.error e => [SEvent.error e]
      | Except.ok (primary, fallback) =>
        let page_hits := if primary.isEmpty then fallback else primary
        let total2 := total + page_hits.length
        SEvent.page page pageUrl page_hits.length page_hits total2 ::
          (if page_hits.isEmpty then [SEvent.done (pages + 1) total2]
           else stream_go feed base fuel (pages + 1) (page + 1) total2)

/-- Model of the spawned streaming task of `scrape_stream`
(main.rs 125-299): the same validation prelude as `scrape_prices`, each
failure emitting a single terminal `error` event, then a `start` event
and the streaming loop. -/
def scrape_stream (parsed : Option Url) (robotsFetch : Except String String)
    (matcher : String → Bool) (feed : Feed) (page_range : Option Nat) :
    List SEvent :=
  match parsed with
  | none => [SEvent.error "invalid url"]
  | some u =>
    match u.host with
    | none => [SEvent.error "url has no host"]
    | some host =>
      if allowedHosts.contains host then
        if matcher (robots_text robotsFetch) then
          match normalize_pager u with
          | (base, page) =>
            let max_pages := page_range.getD HARD_PAGE_CAP
            SEvent.start (base.scheme ++ "://" ++ host) max_pages ::
              stream_go feed base max_pages 0 page 0
        else [SEvent.error "robots.txt disallows this URL"]
      else [SEvent.error "domain not in whitelist"]

/-- The hits carried by the `page` events of an event sequence, in
order. -/
def emitted_hits (evs : List SEvent) : List PriceHit :=
  evs.flatMap (fun e => match e with
    | SEvent.page _ _ _ hs _ => hs
    | _ => [])

/-- The non-empty identifiers of a hit list, in order. -/
def hitIds (l : List PriceHit) : List String :=
  (l.map PriceHit.id).filter (fun s => s ≠ "")

/-- Event classifiers for the streaming-order claim. -/
def isStartEv : SEvent → Bool
  | SEvent.start _ _ => true
  | _ => false

def isPageEv : SEvent → Bool
  | SEvent.page _ _ _ _ _ => true
  | _ => false

def isTerminalEv : SEvent → Bool
  | SEvent.done _ _ => true
  | SEvent.error _ => true
  | _ => false

/-- The page number carried by a `page` event (0 otherwise). -/
def pageNumOf : SEvent → Nat
  | SEvent.page n _ _ _ _ => n
  | _ => 0

/-- The crawl start URL with a given page parameter attached, as
`build_page_url` produces it from `goodUrl`'s normalized base. -/
def goodUrlPage (p : Nat) : Url :=
  { scheme := "https", host := some "www.njuskalo.hr",
    path := "/prodaja-stanova/zagreb",
    query := some (serializePairs [("page", natToString p)]) }

/-- A feed with given parsed cards on pages 1-3 and nothing afterwards.
-/
def feed3 (l1 l2 l3 : List PriceHit) : Feed := fun p =>
  if p = 1 then Except.ok (l1, [])
  else if p = 2 then Except.ok (l2, [])
  else if p = 3 then Except.ok (l3, [])
  else Except.ok ([], [])

/-- A feed with non-empty parsed cards on every page. -/
def feedUnlimited (l1 l2 : List PriceHit) : Feed := fun p =>
  Except.ok ((if p = 1 then l1 else l2), [])

/-- Dedup-register invariant tying the seen-set to the non-empty
identifiers of the accumulated hits. -/
def RegInv (hits : List PriceHit) (seen : List String) : Prop :=
  (hitIds hits).Nodup ∧ ∀ s, seen.contains s = true ↔ s ∈ hitIds hits

/-- A start URL on the allow-listed host, used for concrete runs. -/
def goodUrl : Url :=
  { scheme := "https", host := some "www.njuskalo.hr",
    path := "/prodaja-stanova/zagreb", query := none }

/-- The normalized base `normalize_pager` derives from `goodUrl` (its
empty pair list re-serialized as an empty query string). -/
def goodBase : Url :=
  { scheme := "https", host := some "www.njuskalo.hr",
    path := "/prodaja-stanova/zagreb", query := some "" }

/-- An allow-listed URL with a given raw query string, used for
concrete runs. -/
def qUrl (q : String) : Url :=
  { scheme := "https", host := some "www.njuskalo.hr", path := "/p",
    query := some q }

/-- A start URL on a host outside the allow-list. -/
def badUrl : Url :=
  { scheme := "https", host := some "evil.example", path := "/x",
    query := none }

/-- A minimal hit with identifier "7". -/
def dupHit : PriceHit :=
  { id := "7", listing_url := "u", title := "t", price_numeric := none,
    currency := none, raw_price := "p", sqm := none, price_per_m2 := none }

/-- A minimal hit with identifier "9". -/
def hitDup9 : PriceHit :=
  { id := "9", listing_url := "v", title := "t", price_numeric := none,
    currency := none, raw_price := "p", sqm := none, price_per_m2 := none }

/-- A minimal hit with a chosen identifier. -/
def mkHit (i : String) : PriceHit :=
  { id := i, listing_url := "w", title := "t", price_numeric := none,
    currency := none, raw_price := "p", sqm := none, price_per_m2 := none }

/-- A concrete card as the selectors would extract it from one listing
fragment. -/
def testCard : Card :=
  { titleText := some "Stan, 50 m2", priceText := some "250.000 \u20ac",
    hrefAttr := some "https://www.njuskalo.hr/nekretnine/stan-oglas-12345",
    dataHref := none, descLi := some "Stambena 50 m2", descScope := none }

/-- The hit `parse_card` produces from `testCard` under the identity
join. -/
def testHit : PriceHit :=
  { id := "12345",
    listing_url := "https://www.njuskalo.hr/nekretnine/stan-oglas-12345",
    title := "Stan, 50 m2", price_numeric := some 250000,
    currency := some "EUR", raw_price := "250.000 \u20ac", sqm := some 50,
    price_per_m2 := some 5000 }

/-!
## Supporting lemmas
-/

theorem digit_char_isDigit (d : Nat) (h : d < 10) :
    (Char.ofNat (48 + d)).isDigit = true := by
  interval_cases d <;> decide

theorem digit_char_val (d : Nat) (h : d < 10) :
    (Char.ofNat (48 + d)).toNat - 48 = d := by
  interval_cases d <;> decide

theorem digitsVal_append (l1 l2 : List Char) :
    digitsVal (l1 ++ l2) =
      digitsVal l1 * 10 ^ l2.length + digitsVal l2 := by
  induction l2 using List.reverseRecOn with
  | nil => simp [digitsVal]
  | append_singleton l2 c ih =>
    rw [show l1 ++ (l2 ++ [c]) = (l1 ++ l2) ++ [c] by simp]
    simp only [digitsVal, List.foldl_append, List.foldl_cons, List.foldl_nil] at *
    rw [ih]
    simp [pow_succ]
    ring

theorem natToDigitsAux_spec (fuel : Nat) :
    ∀ n, n < fuel →
      (natToDigitsAux fuel n).all Char.isDigit = true
      ∧ natToDigitsAux fuel n ≠ []
      ∧ digitsVal (natToDigitsAux fuel n) = n := by
  induction fuel with
  | zero => intro n hn; omega
  | succ fuel ih =>
    intro n hn
    by_cases h : n < 10
    · rw [natToDigitsAux, if_pos h]
      refine ⟨by simp [digit_char_isDigit n h], by simp, ?_⟩
      simp only [digitsVal, List.foldl_cons, List.foldl_nil]
      have := digit_char_val n h
      omega
    · rw [natToDigitsAux, if_neg h]
      have hdiv : n / 10 < fuel := by omega
      obtain ⟨ha, hb, hc⟩ := ih (n / 10) hdiv
      refine ⟨?_, by simp, ?_⟩
      · have hd := digit_char_isDigit (n % 10) (Nat.mod_lt _ (by omega))
        simp_all [List.all_append]
      · rw [digitsVal_append, hc]
        have h2 : digitsVal [Char.ofNat (48 + n % 10)] = n % 10 := by
          simp only [digitsVal, List.foldl_cons, List.foldl_nil]
          have := digit_char_val (n % 10) (Nat.mod_lt _ (by omega))
          omega
        rw [h2]
        simp only [List.length_singleton, pow_one]
        omega

theorem natToDigits_ne_nil (n : Nat) : natToDigits n ≠ [] :=
  (natToDigitsAux_spec (n + 1) n (by omega)).2.1

theorem natToDigits_all_digit (n : Nat) : (natToDigits n).all Char.isDigit :=
  (natToDigitsAux_spec (n + 1) n (by omega)).1

theorem digitsVal_natToDigits (n : Nat) : digitsVal (natToDigits n) = n :=
  (natToDigitsAux_spec (n + 1) n (by omega)).2.2

theorem natToDigits_head_not_plus (n : Nat) :
    (natToDigits n).take 1 ≠ ['+'] := by
  intro hcontra
  have hall := natToDigits_all_digit n
  rw [List.all_eq_true] at hall
  have hmem : '+' ∈ natToDigits n := by
    have : '+' ∈ (natToDigits n).take 1 := by rw [hcontra]; simp
    exact List.mem_of_mem_take this
  have := hall _ hmem
  simp [Char.isDigit] at this

theorem parseUsize_natToString (n : Nat) (h : n < 2 ^ 64) :
    parseUsize (natToString n) = some n := by
  unfold parseUsize natToString
  have hne := natToDigits_ne_nil n
  have hall := natToDigits_all_digit n
  have hval := digitsVal_natToDigits n
  have hdata : (String.mk (natToDigits n)).data = natToDigits n := rfl
  simp only [hdata, if_neg (natToDigits_head_not_plus n)]
  rw [if_pos ⟨hne, hall⟩, hval, if_pos h]

theorem parseUsize_lt (s : String) (n : Nat) (h : parseUsize s = some n) :
    n < 2 ^ 64 := by
  have h64 : (2 : Nat) ^ 64 = 18446744073709551616 := by norm_num
  unfold parseUsize at h
  rw [h64] at h ⊢
  split at h <;> simp_all <;> omega


theorem hexVal_hexDigitChar (n : Nat) (h : n < 16) :
    hexVal (hexDigitChar n) = n := by
  interval_cases n <;> decide

theorem isHexDigit_hexDigitChar (n : Nat) (h : n < 16) :
    isHexDigit (hexDigitChar n) = true := by
  interval_cases n <;> decide

theorem hexDigitChar_ne_sep (n : Nat) (h : n < 16) :
    hexDigitChar n ≠ '&' ∧ hexDigitChar n ≠ '=' := by
  interval_cases n <;> exact ⟨by decide, by decide⟩

theorem mem_encodeChar_ne_sep (c : Char) :
    ∀ x ∈ encodeChar c, x ≠ '&' ∧ x ≠ '=' := by
  intro x hx
  unfold encodeChar at hx
  split at hx
  · simp only [List.mem_singleton] at hx
    subst hx
    exact ⟨by decide, by decide⟩
  · split at hx
    · rename_i hsafe
      simp only [List.mem_singleton] at hx
      subst hx
      constructor
      · intro he
        rw [he] at hsafe
        revert hsafe
        decide
      · intro he
        rw [he] at hsafe
        revert hsafe
        decide
    · split at hx
      · rename_i hlt
        simp only [List.mem_cons, List.not_mem_nil, or_false] at hx
        rcases hx with hx | hx | hx
        · subst hx
          exact ⟨by decide, by decide⟩
        · subst hx
          exact hexDigitChar_ne_sep _ (Nat.div_lt_of_lt_mul (by omega))
        · subst hx
          exact hexDigitChar_ne_sep _ (Nat.mod_lt _ (by omega))
      · rename_i hge
        simp only [List.mem_singleton] at hx
        subst hx
        constructor
        · intro he
          rw [he] at hge
          exact hge (by decide)
        · intro he
          rw [he] at hge
          exact hge (by decide)

theorem sep_not_mem_encodeStr (s : String) (x : Char)
    (hsep : x = '&' ∨ x = '=') : x ∉ encodeStr s := by
  intro hmem
  unfold encodeStr at hmem
  rw [List.mem_flatMap] at hmem
  obtain ⟨c, _, hc⟩ := hmem
  rcases hsep with h | h
  · exact (mem_encodeChar_ne_sep c x hc).1 h
  · exact (mem_encodeChar_ne_sep c x hc).2 h

theorem formDecode_nil : formDecode [] = [] := rfl

theorem formDecode_plus (rest : List Char) :
    formDecode ('+' :: rest) = ' ' :: formDecode rest := rfl

theorem formDecode_pct (a b : Char) (rest : List Char) :
    formDecode ('%' :: a :: b :: rest)
      = if isHexDigit a ∧ isHexDigit b then
          Char.ofNat (16 * hexVal a + hexVal b) :: formDecode rest
        else '%' :: formDecode (a :: b :: rest) := rfl

theorem formDecode_cons_of_ne (c : Char) (rest : List Char)
    (h1 : c ≠ '%') (h2 : c ≠ '+') :
    formDecode (c :: rest) = c :: formDecode rest := by
  rw [formDecode.eq_def]
  split
  · rename_i heq
    exact absurd heq (by simp)
  · rename_i a b r heq
    injection heq with hc _
    exact absurd hc h1
  · rename_i r heq
    injection heq with hc _
    exact absurd hc h2
  · rename_i c2 r heq
    injection heq with hc hr
    rw [hc, hr]

theorem formDecode_encodeChar (c : Char) (rest : List Char) :
    formDecode (encodeChar c ++ rest) = c :: formDecode rest := by
  unfold encodeChar
  split
  · rename_i hsp
    subst hsp
    show formDecode ('+' :: rest) = ' ' :: formDecode rest
    exact formDecode_plus rest
  · split
    · rename_i hsp hsafe
      show formDecode (c :: rest) = c :: formDecode rest
      refine formDecode_cons_of_ne c rest ?_ ?_
      · intro he
        rw [he] at hsafe
        revert hsafe
        decide
      · intro he
        rw [he] at hsafe
        revert hsafe
        decide
    · split
      · rename_i hlt
        have hdiv : c.toNat / 16 < 16 := Nat.div_lt_of_lt_mul (by omega)
        have hmod : c.toNat % 16 < 16 := Nat.mod_lt _ (by omega)
        show formDecode ('%' :: hexDigitChar (c.toNat / 16)
            :: hexDigitChar (c.toNat % 16) :: rest) = c :: formDecode rest
        rw [formDecode_pct,
          if_pos ⟨isHexDigit_hexDigitChar _ hdiv,
            isHexDigit_hexDigitChar _ hmod⟩,
          hexVal_hexDigitChar _ hdiv, hexVal_hexDigitChar _ hmod]
        have harith : 16 * (c.toNat / 16) + c.toNat % 16 = c.toNat := by omega
        rw [harith, Char.ofNat_toNat]
      · rename_i hge
        show formDecode (c :: rest) = c :: formDecode rest
        refine formDecode_cons_of_ne c rest ?_ ?_
        · intro he
          rw [he] at hge
          exact hge (by decide)
        · intro he
          rw [he] at hge
          exact hge (by decide)

theorem formDecode_flatMap_encodeChar (s : List Char) (rest : List Char) :
    formDecode (s.flatMap encodeChar ++ rest) = s ++ formDecode rest := by
  induction s with
  | nil => rfl
  | cons c t ih =>
    rw [List.flatMap_cons, List.append_assoc, formDecode_encodeChar, ih]
    rfl

theorem formDecode_encodeStr (s : String) :
    formDecode (encodeStr s) = s.data := by
  have h := formDecode_flatMap_encodeChar s.data []
  rw [List.append_nil] at h
  rw [encodeStr, h, formDecode_nil, List.append_nil]

theorem splitOnPred_no_sep (p : Char → Bool) :
    ∀ l : List Char, (∀ c ∈ l, p c = false) → splitOnPred p l = [l] := by
  intro l
  induction l with
  | nil => intro _; rfl
  | cons c t ih =>
    intro h
    simp only [splitOnPred]
    rw [if_neg (by
        intro hc
        rw [h c (List.mem_cons_self c t)] at hc
        exact Bool.false_ne_true hc),
      ih (fun x hx => h x (List.mem_cons_of_mem _ hx))]

theorem splitOnPred_append_sep (p : Char → Bool) (sep : Char)
    (hsep : p sep = true) :
    ∀ (l r : List Char), (∀ c ∈ l, p c = false) →
      splitOnPred p (l ++ sep :: r) = l :: splitOnPred p r := by
  intro l
  induction l with
  | nil =>
    intro r _
    show splitOnPred p (sep :: r) = [] :: splitOnPred p r
    simp only [splitOnPred]
    rw [if_pos hsep]
  | cons c t ih =>
    intro r h
    show splitOnPred p (c :: (t ++ sep :: r)) = (c :: t) :: splitOnPred p r
    simp only [splitOnPred]
    rw [if_neg (by
        intro hc
        rw [h c (List.mem_cons_self c t)] at hc
        exact Bool.false_ne_true hc),
      ih r (fun x hx => h x (List.mem_cons_of_mem _ hx))]

theorem splitOnPred_joinSegs :
    ∀ segs : List (List Char), segs ≠ [] →
      (∀ seg ∈ segs, ∀ c ∈ seg, (c == '&') = false) →
      splitOnPred (fun c => c == '&') (joinSegs segs) = segs := by
  intro segs
  induction segs with
  | nil => intro h; exact absurd rfl h
  | cons seg rest ih =>
    intro _ h
    cases rest with
    | nil =>
      show splitOnPred (fun c => c == '&') (joinSegs [seg]) = [seg]
      rw [show joinSegs [seg] = seg from rfl]
      exact splitOnPred_no_sep _ seg (h seg (List.mem_cons_self _ _))
    | cons s2 r2 =>
      rw [show joinSegs (seg :: s2 :: r2) = seg ++ '&' :: joinSegs (s2 :: r2)
          from rfl]
      rw [splitOnPred_append_sep _ '&' (by decide) seg (joinSegs (s2 :: r2))
        (h seg (List.mem_cons_self _ _))]
      rw [ih (by simp) (fun s hs c hc => h s (List.mem_cons_of_mem _ hs) c hc)]

theorem amp_not_mem_segOf (kv : String × String) : '&' ∉ segOf kv := by
  intro hmem
  unfold segOf at hmem
  rw [List.mem_append] at hmem
  rcases hmem with h | h
  · exact sep_not_mem_encodeStr kv.1 '&' (Or.inl rfl) h
  · rw [List.mem_cons] at h
    rcases h with h | h
    · exact absurd h (by decide)
    · exact sep_not_mem_encodeStr kv.2 '&' (Or.inl rfl) h

theorem segOf_ne_nil (kv : String × String) : segOf kv ≠ [] := by
  unfold segOf
  intro h
  have := (List.append_eq_nil.mp h).2
  simp at this

theorem segOf_no_amp_beq (kv : String × String) :
    ∀ c ∈ segOf kv, (c == '&') = false := by
  intro c hc
  rw [beq_eq_false_iff_ne]
  intro he
  rw [he] at hc
  exact amp_not_mem_segOf kv hc

theorem splitOnPred_serializePairs (qp : List (String × String))
    (hne : qp ≠ []) :
    splitOnPred (fun c => c == '&') (serializePairs qp).data
      = qp.map segOf := by
  rw [show (serializePairs qp).data = joinSegs (qp.map segOf) from rfl]
  refine splitOnPred_joinSegs _ (by simpa using hne) ?_
  intro seg hs c hc
  rw [List.mem_map] at hs
  obtain ⟨kv2, _, hseg⟩ := hs
  rw [← hseg] at hc
  exact segOf_no_amp_beq kv2 c hc

theorem takeWhile_append_sep (l r : List Char) (x : Char)
    (hl : ∀ c ∈ l, c ≠ x) :
    (l ++ x :: r).takeWhile (fun c => c ≠ x) = l
    ∧ (l ++ x :: r).dropWhile (fun c => c ≠ x) = x :: r := by
  induction l with
  | nil =>
    constructor
    · show (x :: r).takeWhile (fun c => c ≠ x) = []
      rw [List.takeWhile_cons]
      simp
    · show (x :: r).dropWhile (fun c => c ≠ x) = x :: r
      rw [List.dropWhile_cons]
      simp
  | cons c t ih =>
    have hc : c ≠ x := hl c (List.mem_cons_self c t)
    obtain ⟨iht, ihd⟩ := ih (fun y hy => hl y (List.mem_cons_of_mem _ hy))
    constructor
    · show (c :: (t ++ x :: r)).takeWhile (fun c => c ≠ x) = c :: t
      rw [List.takeWhile_cons, if_pos (by simp [hc]), iht]
    · show (c :: (t ++ x :: r)).dropWhile (fun c => c ≠ x) = x :: r
      rw [List.dropWhile_cons, if_pos (by simp [hc]), ihd]

theorem decode_segOf (kv : String × String) :
    (String.mk (formDecode ((segOf kv).takeWhile (fun c => c ≠ '='))),
     String.mk (formDecode (((segOf kv).dropWhile (fun c => c ≠ '=')).drop 1)))
      = kv := by
  obtain ⟨k, v⟩ := kv
  have hne : ∀ c ∈ encodeStr k, c ≠ '=' :=
    fun c hc he => sep_not_mem_encodeStr k '=' (Or.inr rfl) (he ▸ hc)
  obtain ⟨ht, hd⟩ := takeWhile_append_sep (encodeStr k) (encodeStr v) '=' hne
  rw [show segOf (k, v) = encodeStr k ++ '=' :: encodeStr v from rfl, ht, hd]
  show (String.mk (formDecode (encodeStr k)),
        String.mk (formDecode (encodeStr v))) = (k, v)
  rw [formDecode_encodeStr, formDecode_encodeStr]

theorem query_pairs_serializePairs (qp : List (String × String)) :
    query_pairs (serializePairs qp) = qp := by
  cases qp with
  | nil => rfl
  | cons kv rest =>
    unfold query_pairs
    rw [splitOnPred_serializePairs (kv :: rest) (by simp)]
    rw [List.filter_eq_self.mpr (fun seg hs => by
      rw [List.mem_map] at hs
      obtain ⟨kv2, _, hseg⟩ := hs
      rw [← hseg]
      simpa using segOf_ne_nil kv2)]
    rw [List.map_map]
    refine (List.map_congr_left ?_).trans (List.map_id _)
    intro kv2 _
    exact decode_segOf kv2

theorem rawPageScanStep_no_page (acc : Nat) (seg : List Char)
    (h : ¬("page=".data.isPrefixOf seg = true
        ∧ (parseUsize (String.mk
            (seg.drop "page=".data.length))).isSome = true)) :
    rawPageScanStep acc seg = acc := by
  unfold rawPageScanStep
  split
  · rename_i hpre
    cases hp : parseUsize (String.mk (seg.drop "page=".data.length)) with
    | none => rfl
    | some n => exact absurd ⟨hpre, by rw [hp]; rfl⟩ h
  · rfl

theorem foldl_rawPageScanStep_no_page (segs : List (List Char)) (acc : Nat)
    (h : ∀ seg ∈ segs, ¬("page=".data.isPrefixOf seg = true
        ∧ (parseUsize (String.mk
            (seg.drop "page=".data.length))).isSome = true)) :
    segs.foldl rawPageScanStep acc = acc := by
  induction segs generalizing acc with
  | nil => rfl
  | cons seg rest ih =>
    rw [List.foldl_cons,
      rawPageScanStep_no_page acc seg (h seg (List.mem_cons_self _ _))]
    exact ih acc (fun s hs => h s (List.mem_cons_of_mem _ hs))

theorem rawPageScanStep_parse (acc n : Nat) (seg : List Char)
    (hpre : "page=".data.isPrefixOf seg = true)
    (hp : parseUsize (String.mk (seg.drop "page=".data.length)) = some n) :
    rawPageScanStep acc seg = Nat.max n 1 := by
  unfold rawPageScanStep
  rw [if_pos hpre, hp]

theorem foldl_rawPageScanStep_bounds (segs : List (List Char)) (acc : Nat)
    (h1 : 1 ≤ acc) (h2 : acc < 2 ^ 64) :
    1 ≤ segs.foldl rawPageScanStep acc
    ∧ segs.foldl rawPageScanStep acc < 2 ^ 64 := by
  induction segs generalizing acc with
  | nil => exact ⟨h1, h2⟩
  | cons seg rest ih =>
    rw [List.foldl_cons]
    apply ih
    · unfold rawPageScanStep
      split
      · split
        · exact Nat.le_max_right _ 1
        · exact h1
      · exact h1
    · unfold rawPageScanStep
      split
      · split
        · rename_i n hn
          have := parseUsize_lt _ _ hn
          exact Nat.max_lt.mpr ⟨this, by norm_num⟩
        · exact h2
      · exact h2

theorem normalize_pager_query (u : Url) :
    (normalize_pager u).1.query = some (serializePairs
      ((query_pairs (u.query.getD "")).filter (fun kv => kv.1 ≠ "page"))) := rfl

theorem normalize_pager_start (u : Url) :
    (normalize_pager u).2
      = (splitOnPred (fun c => c == '&') (u.query.getD "").data).foldl
          rawPageScanStep 1 := rfl

theorem normalize_pager_start_ge_one (u : Url) : 1 ≤ (normalize_pager u).2 :=
  (foldl_rawPageScanStep_bounds
    (splitOnPred (fun c => c == '&') (u.query.getD "").data) 1
    (by omega) (by norm_num)).1

theorem normalize_pager_start_lt (u : Url) : (normalize_pager u).2 < 2 ^ 64 :=
  (foldl_rawPageScanStep_bounds
    (splitOnPred (fun c => c == '&') (u.query.getD "").data) 1
    (by omega) (by norm_num)).2

theorem first_sep_determines (x : Char) :
    ∀ (pre ek r t : List Char), x ∉ ek → x ∉ pre →
      ek ++ x :: r = pre ++ x :: t → ek = pre := by
  intro pre
  induction pre with
  | nil =>
    intro ek r t hek _ heq
    cases ek with
    | nil => rfl
    | cons c ek2 =>
      rw [List.nil_append, List.cons_append] at heq
      injection heq with h1 _
      exact absurd (h1 ▸ List.mem_cons_self c ek2) hek
  | cons p0 pre2 ih =>
    intro ek r t hek hpre heq
    cases ek with
    | nil =>
      rw [List.nil_append, List.cons_append] at heq
      injection heq with h1 _
      exact absurd (h1.symm ▸ List.mem_cons_self p0 pre2) hpre
    | cons c ek2 =>
      rw [List.cons_append, List.cons_append] at heq
      injection heq with h1 h2
      rw [h1, ih ek2 r t (fun hm => hek (List.mem_cons_of_mem _ hm))
        (fun hm => hpre (List.mem_cons_of_mem _ hm)) h2]

theorem encodeStr_eq_of_plain :
    ∀ (kd l : List Char),
      (∀ c ∈ l, c.isAlphanum = true ∧ c.toNat < 256) →
      kd.flatMap encodeChar = l → kd = l := by
  intro kd
  induction kd with
  | nil =>
    intro l _ h
    rw [← h]
    rfl
  | cons c t ih =>
    intro l hl h
    rw [List.flatMap_cons] at h
    unfold encodeChar at h
    split at h
    · exfalso
      have hmem : '+' ∈ l := by rw [← h]; simp
      exact absurd (hl '+' hmem).1 (by decide)
    · split at h
      · cases l with
        | nil => simp at h
        | cons c2 l2 =>
          rw [List.singleton_append] at h
          injection h with h1 h2
          rw [h1, ih l2 (fun y hy => hl y (List.mem_cons_of_mem _ hy)) h2]
      · split at h
        · exfalso
          have hmem : '%' ∈ l := by rw [← h]; simp
          exact absurd (hl '%' hmem).1 (by decide)
        · rename_i hge
          exfalso
          have hmem : c ∈ l := by rw [← h]; simp
          exact hge (hl c hmem).2

theorem encodeStr_page (k : String) (h : encodeStr k = "page".data) :
    k = "page" := by
  have h2 := encodeStr_eq_of_plain k.data "page".data (by decide) h
  exact congrArg String.mk h2

theorem page_prefix_segOf (kv : String × String) :
    "page=".data.isPrefixOf (segOf kv) = true ↔ kv.1 = "page" := by
  constructor
  · intro h
    rw [List.isPrefixOf_iff_prefix] at h
    obtain ⟨t, ht⟩ := h
    have ht2 : encodeStr kv.1 ++ '=' :: encodeStr kv.2
        = "page".data ++ '=' :: t := by
      rw [show ("page".data ++ '=' :: t : List Char) = "page=".data ++ t
          from rfl]
      exact ht.symm
    exact encodeStr_page kv.1 (first_sep_determines '=' "page".data
      (encodeStr kv.1) (encodeStr kv.2) t
      (sep_not_mem_encodeStr kv.1 '=' (Or.inr rfl)) (by decide) ht2)
  · intro h
    have hseg : segOf kv = "page=".data ++ encodeStr kv.2 := by
      rw [show segOf kv = encodeStr kv.1 ++ '=' :: encodeStr kv.2 from rfl, h]
      rfl
    rw [hseg, List.isPrefixOf_iff_prefix]
    exact List.prefix_append _ _

theorem flatMap_encodeChar_digits :
    ∀ l : List Char, (∀ c ∈ l, c.isDigit = true) → l.flatMap encodeChar = l := by
  intro l
  induction l with
  | nil => intro _; rfl
  | cons c t ih =>
    intro h
    have hc : c.isDigit = true := h c (List.mem_cons_self c t)
    rw [List.flatMap_cons, ih (fun y hy => h y (List.mem_cons_of_mem _ hy))]
    have hchar : encodeChar c = [c] := by
      unfold encodeChar
      rw [if_neg (by
          intro he
          rw [he] at hc
          exact absurd hc (by decide)),
        if_pos (Or.inl (by simp [Char.isAlphanum, hc]))]
    rw [hchar]
    rfl

theorem encodeStr_natToString (n : Nat) :
    encodeStr (natToString n) = natToDigits n := by
  have hall := natToDigits_all_digit n
  rw [List.all_eq_true] at hall
  show (natToDigits n).flatMap encodeChar = natToDigits n
  exact flatMap_encodeChar_digits _ (fun c hc => hall c hc)

theorem rawPageScanStep_built_page (acc p : Nat) (hp : p < 2 ^ 64) :
    rawPageScanStep acc (segOf ("page", natToString p)) = Nat.max p 1 := by
  have hpre : "page=".data.isPrefixOf (segOf ("page", natToString p)) = true :=
    (page_prefix_segOf _).mpr rfl
  have hseg : segOf ("page", natToString p)
      = "page=".data ++ natToDigits p := by
    show encodeStr "page" ++ '=' :: encodeStr (natToString p)
      = "page=".data ++ natToDigits p
    rw [encodeStr_natToString p]
    rfl
  have hparse : parseUsize (String.mk
      ((segOf ("page", natToString p)).drop "page=".data.length)) = some p := by
    rw [hseg, List.drop_left]
    exact parseUsize_natToString p hp
  exact rawPageScanStep_parse acc p _ hpre hparse

theorem foldl_raw_scan_serialize_append (qp : List (String × String))
    (p : Nat) (hp : p < 2 ^ 64) :
    (splitOnPred (fun c => c == '&')
        (serializePairs (qp ++ [("page", natToString p)])).data).foldl
      rawPageScanStep 1 = Nat.max p 1 := by
  rw [splitOnPred_serializePairs _ (by simp), List.map_append,
    List.foldl_append]
  rw [show ([("page", natToString p)]).map segOf
      = [segOf ("page", natToString p)] from rfl]
  rw [List.foldl_cons, List.foldl_nil]
  exact rawPageScanStep_built_page _ p hp

/-- Claim C8 (amended): building a page URL from the normalized base
and start page round-trips through the pager's own raw reading: the
built URL normalizes back to exactly that start page; and the start
page is what the pager's raw-text scan of the original query yields —
1 when no raw `&`-segment with the literal prefix `page=` has a
remainder parsing as `usize`, and the clamped value of the last such
segment otherwise.  (The claim's original reading — "the same effective
page as the URL's page-number query parameter" — is refuted at
`?page=%32`, whose decoded page parameter requests page 2 while the
raw scan, hence the built URL, reads page 1; see the counterexample.)
-/
theorem pager_normalize_build_roundtrip :
    ∀ (u b : Url) (sp : Nat) (u2 : Url),
      normalize_pager u = (b, sp) → build_page_url b sp = Except.ok u2 →
      (normalize_pager u2).2 = sp
    ∧ ((∀ seg ∈ splitOnPred (fun c => c == '&') (u.query.getD "").data,
          ¬("page=".data.isPrefixOf seg = true
            ∧ (parseUsize (String.mk
                (seg.drop "page=".data.length))).isSome = true)) → sp = 1)
    ∧ (∀ (s1 s2 : List (List Char)) (seg : List Char) (n : Nat),
        splitOnPred (fun c => c == '&') (u.query.getD "").data
          = s1 ++ seg :: s2 →
        "page=".data.isPrefixOf seg = true →
        parseUsize (String.mk (seg.drop "page=".data.length)) = some n →
        (∀ seg2 ∈ s2, ¬("page=".data.isPrefixOf seg2 = true
          ∧ (parseUsize (String.mk
              (seg2.drop "page=".data.length))).isSome = true)) →
        sp = Nat.max n 1) := by
  intro u b sp u2 hn hb
  have hsp : sp = (splitOnPred (fun c => c == '&')
      (u.query.getD "").data).foldl rawPageScanStep 1 := by
    rw [← normalize_pager_start u, hn]
  have hu2 : u2.query = some (serializePairs
      (query_pairs (b.query.getD "") ++ [("page", natToString sp)])) := by
    have h2 := hb
    unfold build_page_url at h2
    cases h2
    rfl
  have hsp1 : 1 ≤ sp := by
    have h := normalize_pager_start_ge_one u
    rw [hn] at h
    exact h
  have hsplt : sp < 2 ^ 64 := by
    have h := normalize_pager_start_lt u
    rw [hn] at h
    exact h
  refine ⟨?_, ?_, ?_⟩
  · rw [normalize_pager_start, hu2]
    show (splitOnPred (fun c => c == '&') (serializePairs
        (query_pairs (b.query.getD "")
          ++ [("page", natToString sp)])).data).foldl rawPageScanStep 1 = sp
    rw [foldl_raw_scan_serialize_append _ sp hsplt]
    exact Nat.max_eq_left hsp1
  · intro h
    rw [hsp]
    exact foldl_rawPageScanStep_no_page _ 1 h
  · intro s1 s2 seg n hsegs hpre hparse hlast
    rw [hsp, hsegs, List.foldl_append, List.foldl_cons,
      rawPageScanStep_parse _ n seg hpre hparse]
    exact foldl_rawPageScanStep_no_page s2 _ hlast

/-- Concrete instantiations of the round-trip: the URL built from the
normalized `?a=1&page=3` reads back start page 3, and a URL whose raw
query has no `page=` segment normalizes to start page 1. -/
theorem pager_normalize_build_roundtrip_witness :
    (normalize_pager (qUrl "a=1&page=3")).2 = 3
  ∧ (normalize_pager (qUrl "a=1")).2 = 1 := by
  constructor
  · exact (pager_normalize_build_roundtrip (qUrl "a=1&page=3") (qUrl "a=1") 3
      (qUrl "a=1&page=3") (by decide) (by with_unfolding_all rfl)).1
  · exact (pager_normalize_build_roundtrip (qUrl "a=1") (qUrl "a=1") 1
      (qUrl "a=1&page=1") (by decide) (by with_unfolding_all rfl)).2.1
      (by decide)

/-- Claim C8 as stated is false: at the input `?page=%32` the URL's
page-number query parameter (decoded, as the site receives it) requests
page 2, and it is not absent; but `normalize_pager` scans the RAW query
text (main.rs 994-1001), where `%32` does not parse, so the normalized
start page is 1 and the built URL requests page 1 under every reading —
not page 2. -/
theorem pager_roundtrip_counterexample :
    claimed_effective_page (qUrl "page=%32") = 2
  ∧ query_pairs "page=%32" = [("page", "2")]
  ∧ (normalize_pager (qUrl "page=%32")).2 = 1
  ∧ build_page_url (normalize_pager (qUrl "page=%32")).1
      (normalize_pager (qUrl "page=%32")).2 = Except.ok (qUrl "page=1")
  ∧ claimed_effective_page (qUrl "page=1") = 1
  ∧ (normalize_pager (qUrl "page=1")).2 = 1
  ∧ (2 : Nat) ≠ 1 := by
  refine ⟨by decide, by decide, by decide, by with_unfolding_all rfl,
    by decide, by decide, by decide⟩

/-- Claim C9: building a page URL changes nothing but the query's
`page` entry: scheme, host, path and every non-page decoded query pair
(in order) are those of the base, independent of the page number; the
`page` pair is appended with the given value, which is what the pager
subsequently reads back as the effective page of the built URL. -/
theorem build_page_url_frame :
    ∀ (b : Url) (p : Nat) (u2 : Url), build_page_url b p = Except.ok u2 →
      u2.scheme = b.scheme ∧ u2.host = b.host ∧ u2.path = b.path
    ∧ query_pairs (u2.query.getD "")
        = query_pairs (b.query.getD "") ++ [("page", natToString p)]
    ∧ (query_pairs (u2.query.getD "")).filter (fun kv => kv.1 ≠ "page")
        = (query_pairs (b.query.getD "")).filter (fun kv => kv.1 ≠ "page")
    ∧ (p < 2 ^ 64 → (normalize_pager u2).2 = Nat.max p 1) := by
  intro b p u2 hb
  unfold build_page_url at hb
  cases hb
  refine ⟨rfl, rfl, rfl, ?_, ?_, ?_⟩
  · show query_pairs (serializePairs (query_pairs (b.query.getD "")
        ++ [("page", natToString p)]))
      = query_pairs (b.query.getD "") ++ [("page", natToString p)]
    exact query_pairs_serializePairs _
  · show (query_pairs (serializePairs (query_pairs (b.query.getD "")
        ++ [("page", natToString p)]))).filter (fun kv => kv.1 ≠ "page")
      = (query_pairs (b.query.getD "")).filter (fun kv => kv.1 ≠ "page")
    rw [query_pairs_serializePairs, List.filter_append]
    simp
  · intro hp
    rw [normalize_pager_start]
    show (splitOnPred (fun c => c == '&') (serializePairs
        (query_pairs (b.query.getD "")
          ++ [("page", natToString p)])).data).foldl rawPageScanStep 1
      = Nat.max p 1
    exact foldl_raw_scan_serialize_append _ p hp

/-- Concrete instantiation of the frame claim. -/
theorem build_page_url_frame_witness :
    query_pairs ((qUrl "a=1&page=7").query.getD "")
      = query_pairs ((qUrl "a=1").query.getD "") ++ [("page", natToString 7)]
  ∧ (normalize_pager (qUrl "a=1&page=7")).2 = Nat.max 7 1 := by
  have h := build_page_url_frame (qUrl "a=1") 7 (qUrl "a=1&page=7")
    (by with_unfolding_all rfl)
  exact ⟨h.2.2.2.1, h.2.2.2.2.2 (by norm_num)⟩

/-- Claim C10: `build_page_url` succeeds on every input, so the
driver's `build page url failed` branch is dead: every error a crawl
loop run returns originates from the page feed (a fetch failure). -/
theorem build_page_url_total :
    (∀ (base : Url) (p : Nat), ∃ u, build_page_url base p = Except.ok u)
  ∧ (∀ (feed : Feed) (base : Url) (fuel pages page : Nat)
      (hits : List PriceHit) (seen : List String) (ln : Option Url)
      (msg : String) (tr : List Nat),
      scrape_go feed base fuel pages page hits seen ln = (Except.error msg, tr) →
      ∃ q, feed q = Except.error msg) := by
  constructor
  · intro base p
    exact ⟨_, rfl⟩
  · intro feed base fuel
    induction fuel with
    | zero =>
      intro pages page hits seen ln msg tr h
      simp only [scrape_go] at h
      simp at h
    | succ fuel ih =>
      intro pages page hits seen ln msg tr h
      simp only [scrape_go, build_page_url] at h
      cases hf : feed page with
      | error e =>
        rw [hf] at h
        dsimp only at h
        simp only [Prod.mk.injEq, Except.error.injEq] at h
        exact ⟨page, by rw [hf, h.1]⟩
      | ok pf =>
        obtain ⟨primary, fallback⟩ := pf
        rw [hf] at h
        dsimp only at h
        rcases hr1 : register_all primary hits seen with ⟨hits1, seen1, c1⟩
        rw [hr1] at h
        dsimp only at h
        rcases hr2 : (if c1 = 0 then register_all fallback hits1 seen1
            else (hits1, seen1, 0)) with ⟨hits2, seen2, c2⟩
        rw [hr2] at h
        dsimp only at h
        split at h
        · simp at h
        · simp only [Prod.mk.injEq] at h
          have heq : scrape_go feed base fuel (pages + 1) (page + 1) hits2 seen2
              (some { base with
                query := some (serializePairs (query_pairs (base.query.getD "")
                ++ [("page", natToString (page + 1))])) })
              = (Except.error msg,
                 (scrape_go feed base fuel (pages + 1) (page + 1) hits2 seen2
                   (some { base with
                     query := some (serializePairs (query_pairs (base.query.getD "")
                ++ [("page", natToString (page + 1))])) })).2) := by
            rw [← h.1]
          exact ih (pages + 1) (page + 1) hits2 seen2 _ msg _ heq

/-- Concrete run whose only error is the feed's fetch failure. -/
theorem build_page_url_total_witness :
    ∃ q, (fun (_ : Nat) =>
      (Except.error "network down" : Except String (List PriceHit × List PriceHit))) q
      = Except.error "network down" :=
  build_page_url_total.2 (fun _ => Except.error "network down") goodUrl 200 0 1
    [] [] none "network down" [1] (by rfl)

/-- Claim C5: in every hit `parse_card` produces, `price_per_m2` is
present exactly when the numeric price and a strictly positive area are
both present, and it is then their quotient. -/
theorem parse_card_price_per_m2 :
    ∀ (join : String → Option String) (c : Card) (hit : PriceHit),
      parse_card join c = some hit →
      ((∃ q, hit.price_per_m2 = some q) ↔
        ((∃ p, hit.price_numeric = some p) ∧ ∃ s, hit.sqm = some s ∧ 0 < s))
    ∧ (∀ p s, hit.price_numeric = some p → hit.sqm = some s → 0 < s →
        hit.price_per_m2 = some (p / s)) := by
  intro join c hit h
  simp only [parse_card] at h
  split at h
  · simp at h
  · rw [Option.some.injEq] at h
    subst h
    rcases hp : (normalize_price
        (String.mk (trimChars (c.priceText.getD "").data))).1 with _ | p
    all_goals rcases hs : (match extract_sqm c.descLi with
        | some v => some v
        | none => extract_sqm c.descScope) with _ | sVal
    all_goals simp only [hp, hs]
    · exact ⟨by simp, by simp⟩
    · exact ⟨by simp, by simp⟩
    · exact ⟨by simp, by simp⟩
    · by_cases hpos : 0 < sVal
      · rw [if_pos hpos]
        constructor
        · constructor
          · intro _
            exact ⟨⟨p, rfl⟩, sVal, rfl, hpos⟩
          · intro _
            exact ⟨p / sVal, rfl⟩
        · intro p2 s2 hp2 hs2 _
          rw [Option.some.injEq] at hp2 hs2
          rw [← hp2, ← hs2]
      · rw [if_neg hpos]
        constructor
        · constructor
          · intro ⟨q, hq⟩
            simp at hq
          · intro ⟨_, s2, hs2, hpos2⟩
            rw [Option.some.injEq] at hs2
            exact absurd (hs2 ▸ hpos2) hpos
        · intro p2 s2 hp2 hs2 hpos2
          rw [Option.some.injEq] at hs2
          exact absurd (hs2 ▸ hpos2) hpos

/-- Concrete card: price 250000 EUR, area 50, hence 5000 per square
meter. -/
theorem parse_card_price_per_m2_witness :
    ((∃ q, testHit.price_per_m2 = some q) ↔
      ((∃ p, testHit.price_numeric = some p) ∧ ∃ s, testHit.sqm = some s ∧ 0 < s))
  ∧ (∀ p s, testHit.price_numeric = some p → testHit.sqm = some s → 0 < s →
      testHit.price_per_m2 = some (p / s)) :=
  parse_card_price_per_m2 (fun s => some s) testCard testHit
    (by with_unfolding_all rfl)

/-- Claim C4: price normalization on the locale examples, the no-digit
rule and the currency-inference rule.  Currency comes from the euro
sign (EUR), else from a case-insensitive "kn" substring (HRK), else is
absent; a string without an ASCII digit yields no numeric value. -/
theorem normalize_price_spec :
    normalize_price "1.234,50 €" = (some (1234.5 : Rat), some "EUR")
  ∧ normalize_price "650 kn" = (some (650 : Rat), some "HRK")
  ∧ (∀ s : String, (¬ s.data.any Char.isDigit) → (normalize_price s).1 = none)
  ∧ (∀ s : String, (normalize_price s).2 =
      (if s.data.contains '€' then some "EUR"
       else if containsSubstr "kn" (String.mk (s.data.map Char.toLower)) then
         some "HRK"
       else none)) := by
  refine ⟨by with_unfolding_all rfl, by with_unfolding_all rfl, ?_, ?_⟩
  · intro s hs
    simp only [normalize_price]
    rw [if_pos hs]
  · intro s
    simp only [normalize_price]
    split <;> rfl

/-- Concrete no-digit price string: currency inferred, numeric absent. -/
theorem normalize_price_spec_witness :
    (¬ ("po dogovoru kn" : String).data.any Char.isDigit)
  ∧ (normalize_price "po dogovoru kn").1 = none
  ∧ (normalize_price "po dogovoru kn").2 = some "HRK" := by
  refine ⟨by decide, normalize_price_spec.2.2.1 "po dogovoru kn" (by decide),
    by with_unfolding_all rfl⟩

theorem hitIds_append (l1 l2 : List PriceHit) :
    hitIds (l1 ++ l2) = hitIds l1 ++ hitIds l2 := by
  simp [hitIds]

theorem register_hit_inv (h : PriceHit) (hits : List PriceHit)
    (seen : List String) (hI : RegInv hits seen) :
    RegInv (register_hit h hits seen).2.1 (register_hit h hits seen).2.2 := by
  obtain ⟨hnd, hmem⟩ := hI
  unfold register_hit
  by_cases hid : h.id = ""
  · rw [if_neg (by simp [hid]), if_pos hid]
    dsimp only
    have hsingle : hitIds [h] = [] := by simp [hitIds, hid]
    constructor
    · rw [hitIds_append, hsingle]
      simpa using hnd
    · intro s
      rw [hitIds_append, hsingle]
      simpa using hmem s
  · by_cases hseen : seen.contains h.id = true
    · rw [if_pos ⟨hid, hseen⟩]
      exact ⟨hnd, hmem⟩
    · rw [if_neg (by intro hc; exact hseen hc.2), if_neg hid]
      dsimp only
      have hsingle : hitIds [h] = [h.id] := by simp [hitIds, hid]
      have hnotmem : h.id ∉ hitIds hits := by
        intro hin
        exact hseen ((hmem h.id).2 hin)
      constructor
      · rw [hitIds_append, hsingle, List.nodup_append]
        refine ⟨hnd, List.nodup_singleton _, ?_⟩
        intro a ha hb
        simp at hb
        subst hb
        exact hnotmem ha
      · intro s
        rw [hitIds_append, hsingle]
        have := hmem s
        constructor
        · intro hc
          simp at hc
          rcases hc with hc | hc
          · simp [this.1 (by simpa using hc)]
          · simp [hc]
        · intro hin
          simp at hin ⊢
          rcases hin with hin | hin
          · exact Or.inl (by simpa using this.2 hin)
          · exact Or.inr hin

theorem register_all_inv (l : List PriceHit) :
    ∀ (hits : List PriceHit) (seen : List String), RegInv hits seen →
      RegInv (register_all l hits seen).1 (register_all l hits seen).2.1 := by
  induction l with
  | nil => intro hits seen hI; exact hI
  | cons h rest ih =>
    intro hits seen hI
    have h1 := register_hit_inv h hits seen hI
    simp only [register_all]
    rcases hr : register_hit h hits seen with ⟨ok, hits1, seen1⟩
    rw [hr] at h1
    dsimp only at h1 ⊢
    rcases hra : register_all rest hits1 seen1 with ⟨hits2, seen2, c⟩
    have h2 := ih hits1 seen1 h1
    rw [hra] at h2
    exact h2

theorem scrape_go_nodup (feed : Feed) (base : Url) :
    ∀ (fuel pages page : Nat) (hits : List PriceHit) (seen : List String)
      (ln : Option Url) (hits2 : List PriceHit) (meta : Meta) (tr : List Nat),
      RegInv hits seen →
      scrape_go feed base fuel pages page hits seen ln
        = (Except.ok (hits2, meta), tr) →
      (hitIds hits2).Nodup := by
  intro fuel
  induction fuel with
  | zero =>
    intro pages page hits seen ln hits2 meta tr hI h
    simp only [scrape_go] at h
    simp only [Prod.mk.injEq, Except.ok.injEq] at h
    rw [← h.1.1]
    exact hI.1
  | succ fuel ih =>
    intro pages page hits seen ln hits2 meta tr hI h
    simp only [scrape_go, build_page_url] at h
    cases hf : feed page with
    | error e =>
      rw [hf] at h
      dsimp only at h
      simp at h
    | ok pf =>
      obtain ⟨primary, fallback⟩ := pf
      rw [hf] at h
      dsimp only at h
      have hI1 := register_all_inv primary hits seen hI
      rcases hr1 : register_all primary hits seen with ⟨hits1, seen1, c1⟩
      rw [hr1] at h hI1
      dsimp only at h hI1
      have hI2 : RegInv (if c1 = 0 then register_all fallback hits1 seen1
          else (hits1, seen1, 0)).1
          (if c1 = 0 then register_all fallback hits1 seen1
          else (hits1, seen1, 0)).2.1 := by
        split
        · exact register_all_inv fallback hits1 seen1 hI1
        · exact hI1
      rcases hr2 : (if c1 = 0 then register_all fallback hits1 seen1
          else (hits1, seen1, 0)) with ⟨hits3, seen3, c2⟩
      rw [hr2] at h hI2
      dsimp only at h hI2
      split at h
      · simp only [Prod.mk.injEq, Except.ok.injEq] at h
        rw [← h.1.1]
        exact hI2.1
      · simp only [Prod.mk.injEq] at h
        have heq : scrape_go feed base fuel (pages + 1) (page + 1) hits3 seen3
            (some { base with
              query := some (serializePairs (query_pairs (base.query.getD "")
                ++ [("page", natToString (page + 1))])) })
            = (Except.ok (hits2, meta),
               (scrape_go feed base fuel (pages + 1) (page + 1) hits3 seen3
                 (some { base with
                   query := some (serializePairs (query_pairs (base.query.getD "")
                ++ [("page", natToString (page + 1))])) })).2) := by
          rw [← h.1]
        exact ih (pages + 1) (page + 1) hits3 seen3 _ hits2 meta _ hI2 heq

/-- Claim C2 (amended): in batch mode every parsed hit passes through
the dedup register, so a non-empty identifier occurs at most once among
the returned hits, the first occurrence being kept: `register_hit`
drops a hit exactly when its identifier is non-empty and already seen,
and otherwise appends it.  (Streaming mode, by contrast, emits parsed
hits without any dedup register; see the counterexample.) -/
theorem dedup_register_spec :
    (∀ (parsed : Option Url) (rf : Except String String) (m : String → Bool)
       (feed : Feed) (pr : Option Nat) (hits : List PriceHit) (meta : Meta)
       (tr : List Nat),
       scrape_prices parsed rf m feed pr = (Except.ok (hits, meta), tr) →
       (hitIds hits).Nodup)
  ∧ (∀ (h : PriceHit) (hs : List PriceHit) (sn : List String),
       (h.id ≠ "" → sn.contains h.id = true → register_hit h hs sn = (false, hs, sn))
     ∧ (h.id = "" → register_hit h hs sn = (true, hs ++ [h], sn))
     ∧ (h.id ≠ "" → sn.contains h.id = false →
         register_hit h hs sn = (true, hs ++ [h], sn ++ [h.id]))) := by
  constructor
  · intro parsed rf m feed pr hits meta tr h
    unfold scrape_prices at h
    cases parsed with
    | none => simp at h
    | some u =>
      dsimp only at h
      cases hh : u.host with
      | none => rw [hh] at h; simp at h
      | some host =>
        rw [hh] at h
        dsimp only at h
        split at h
        · split at h
          · rcases hn : normalize_pager u with ⟨base, page⟩
            rw [hn] at h
            dsimp only at h
            exact scrape_go_nodup feed base (pr.getD HARD_PAGE_CAP) 0 page [] []
              none hits meta tr ⟨by simp [hitIds], by simp [hitIds]⟩ h
          · simp at h
        · simp at h
  · intro h hs sn
    refine ⟨?_, ?_, ?_⟩
    · intro hid hseen
      unfold register_hit
      rw [if_pos ⟨hid, hseen⟩]
    · intro hid
      unfold register_hit
      rw [if_neg (by simp [hid]), if_pos hid]
    · intro hid hseen
      unfold register_hit
      rw [if_neg (by intro hc; rw [hseen] at hc; exact Bool.false_ne_true hc.2),
        if_neg hid]

/-- Concrete batch run with a duplicated identifier: the duplicate is
suppressed, the first occurrence kept, and `register_hit` rejects a
repeat. -/
theorem dedup_register_spec_witness :
    (hitIds [mkHit "a", mkHit "b"]).Nodup
  ∧ register_hit (mkHit "a") [mkHit "a"] ["a"]
      = (false, [mkHit "a"], ["a"]) := by
  refine ⟨dedup_register_spec.1 (some goodUrl) (Except.ok "") (fun _ => true)
    (fun p => if p = 1 then Except.ok ([mkHit "a", mkHit "a", mkHit "b"], [])
      else Except.ok ([], []))
    none [mkHit "a", mkHit "b"]
    { page_count := 2, total_hits := 2, next_url := none } [1, 2]
    (by with_unfolding_all rfl),
    (dedup_register_spec.2 (mkHit "a") [mkHit "a"] ["a"]).1 (by decide) (by decide)⟩

/-- Claim C2 as stated is false: a streaming run emits a page whose
hits repeat the non-empty identifier "7", because the streaming loop
never consults the dedup register. -/
theorem stream_no_dedup_counterexample :
    (emitted_hits (scrape_stream (some goodUrl) (Except.ok "") (fun _ => true)
      (fun _ => Except.ok ([dupHit, dupHit], [])) (some 1))).map PriceHit.id
      = ["7", "7"]
  ∧ dupHit.id ≠ ""
  ∧ ¬ (hitIds (emitted_hits (scrape_stream (some goodUrl) (Except.ok "")
      (fun _ => true) (fun _ => Except.ok ([dupHit, dupHit], []))
      (some 1)))).Nodup := by
  refine ⟨by decide, by decide, by decide⟩

theorem register_all_fresh (l : List PriceHit) :
    ∀ (hits : List PriceHit) (seen : List String),
      (hitIds l).Nodup → (∀ s ∈ hitIds l, seen.contains s = false) →
      register_all l hits seen = (hits ++ l, seen ++ hitIds l, l.length) := by
  induction l with
  | nil => intro hits seen _ _; simp [register_all, hitIds]
  | cons h rest ih =>
    intro hits seen hnd hfresh
    by_cases hid : h.id = ""
    · have hids : hitIds (h :: rest) = hitIds rest := by simp [hitIds, hid]
      rw [hids] at hnd hfresh
      simp only [register_all]
      rw [show register_hit h hits seen = (true, hits ++ [h], seen) from by
        unfold register_hit
        rw [if_neg (by simp [hid]), if_pos hid]]
      dsimp only
      rw [ih (hits ++ [h]) seen hnd hfresh]
      rw [hids]
      simp [List.append_assoc, Nat.add_comm]
    · have hids : hitIds (h :: rest) = h.id :: hitIds rest := by
        simp [hitIds, hid]
      have hfh : seen.contains h.id = false :=
        hfresh h.id (by rw [hids]; simp)
      simp only [register_all]
      rw [show register_hit h hits seen = (true, hits ++ [h], seen ++ [h.id])
          from by
        unfold register_hit
        rw [if_neg (by intro hc; rw [hfh] at hc; exact Bool.false_ne_true hc.2),
          if_neg hid]]
      dsimp only
      have hnd2 : (hitIds rest).Nodup := by
        rw [hids] at hnd
        exact hnd.of_cons
      have hnotin : h.id ∉ hitIds rest := by
        rw [hids] at hnd
        exact (List.nodup_cons.mp hnd).1
      have hfresh2 : ∀ s ∈ hitIds rest, (seen ++ [h.id]).contains s = false := by
        intro s hs
        have h1 : seen.contains s = false := hfresh s (by rw [hids]; simp [hs])
        have h2 : s ≠ h.id := fun he => hnotin (he ▸ hs)
        simp at h1
        simp [h1, h2]
      rw [ih (hits ++ [h]) (seen ++ [h.id]) hnd2 hfresh2]
      rw [hids]
      simp [List.append_assoc, Nat.add_comm]

theorem scrape_go_step_empty (feed : Feed) (base : Url) (fuel pages page : Nat)
    (hits : List PriceHit) (seen : List String)
    (hf : feed page = Except.ok ([], [])) :
    ∀ ln : Option Url,
    scrape_go feed base (fuel + 1) pages page hits seen ln =
      (Except.ok (hits, { page_count := pages + 1, total_hits := hits.length,
                          next_url := none }), [page]) := by
  intro ln
  simp only [scrape_go, build_page_url]
  rw [hf]
  rfl

theorem scrape_go_step_nonempty (feed : Feed) (base : Url)
    (fuel pages page : Nat) (hits : List PriceHit) (seen : List String)
    (l fb : List PriceHit)
    (hf : feed page = Except.ok (l, fb))
    (hreg : register_all l hits seen = (hits ++ l, seen ++ hitIds l, l.length))
    (hne : l ≠ []) :
    ∀ ln : Option Url,
    scrape_go feed base (fuel + 1) pages page hits seen ln =
      ((scrape_go feed base fuel (pages + 1) (page + 1) (hits ++ l)
          (seen ++ hitIds l)
          (some { base with
            query := some (serializePairs (query_pairs (base.query.getD "")
                ++ [("page", natToString (page + 1))])) })).1,
        page :: (scrape_go feed base fuel (pages + 1) (page + 1) (hits ++ l)
          (seen ++ hitIds l)
          (some { base with
            query := some (serializePairs (query_pairs (base.query.getD "")
                ++ [("page", natToString (page + 1))])) })).2) := by
  intro ln
  have hlen : l.length ≠ 0 := by simpa using hne
  simp only [scrape_go, build_page_url]
  rw [hf]
  dsimp only
  rw [hreg]
  dsimp only
  rw [if_neg hlen]
  dsimp only
  rw [if_neg (by simpa using hlen)]

theorem scrape_go_pages_le (feed : Feed) (base : Url) :
    ∀ (fuel pages page : Nat) (hits : List PriceHit) (seen : List String)
      (ln : Option Url) (hits2 : List PriceHit) (meta : Meta) (tr : List Nat),
      scrape_go feed base fuel pages page hits seen ln
        = (Except.ok (hits2, meta), tr) →
      meta.page_count ≤ pages + fuel := by
  intro fuel
  induction fuel with
  | zero =>
    intro pages page hits seen ln hits2 meta tr h
    simp only [scrape_go] at h
    simp only [Prod.mk.injEq, Except.ok.injEq] at h
    rw [← h.1.2]
    dsimp only
    omega
  | succ fuel ih =>
    intro pages page hits seen ln hits2 meta tr h
    simp only [scrape_go, build_page_url] at h
    cases hf : feed page with
    | error e =>
      rw [hf] at h
      dsimp only at h
      simp at h
    | ok pf =>
      obtain ⟨primary, fallback⟩ := pf
      rw [hf] at h
      dsimp only at h
      rcases hr1 : register_all primary hits seen with ⟨hits1, seen1, c1⟩
      rw [hr1] at h
      dsimp only at h
      rcases hr2 : (if c1 = 0 then register_all fallback hits1 seen1
          else (hits1, seen1, 0)) with ⟨hits3, seen3, c2⟩
      rw [hr2] at h
      dsimp only at h
      split at h
      · simp only [Prod.mk.injEq, Except.ok.injEq] at h
        rw [← h.1.2]
        dsimp only
        omega
      · simp only [Prod.mk.injEq] at h
        have heq : scrape_go feed base fuel (pages + 1) (page + 1) hits3 seen3
            (some { base with
              query := some (serializePairs (query_pairs (base.query.getD "")
                ++ [("page", natToString (page + 1))])) })
            = (Except.ok (hits2, meta),
               (scrape_go feed base fuel (pages + 1) (page + 1) hits3 seen3
                 (some { base with
                   query := some (serializePairs (query_pairs (base.query.getD "")
                ++ [("page", natToString (page + 1))])) })).2) := by
          rw [← h.1]
        have := ih (pages + 1) (page + 1) hits3 seen3 _ hits2 meta _ heq
        omega

/-- Claim C3 (amended): a crawl run stops without error when the page
cap is reached or the last page yields zero records surviving the dedup
register.  With distinct identifiers: pages 1-3 non-empty and page 4
empty gives `pages_visited = 4` and `total_hits` the sum of pages 1-3;
a cap of 2 over unlimited non-empty pages gives exactly
`pages_visited = 2`; an empty first page gives `pages_visited = 1`; and
every successful run reports at most the page cap. -/
theorem scrape_termination_spec :
    (∀ l1 l2 l3 : List PriceHit, l1 ≠ [] → l2 ≠ [] → l3 ≠ [] →
      (hitIds (l1 ++ l2 ++ l3)).Nodup →
      scrape_prices (some goodUrl) (Except.ok "") (fun _ => true)
        (feed3 l1 l2 l3) none
        = (Except.ok (l1 ++ l2 ++ l3,
            { page_count := 4, total_hits := l1.length + l2.length + l3.length,
              next_url := none }), [1, 2, 3, 4]))
  ∧ (∀ l1 l2 : List PriceHit, l1 ≠ [] → l2 ≠ [] →
      (hitIds (l1 ++ l2)).Nodup →
      scrape_prices (some goodUrl) (Except.ok "") (fun _ => true)
        (feedUnlimited l1 l2) (some 2)
        = (Except.ok (l1 ++ l2,
            { page_count := 2, total_hits := l1.length + l2.length,
              next_url := some (goodUrlPage 3) }), [1, 2]))
  ∧ (scrape_prices (some goodUrl) (Except.ok "") (fun _ => true)
      (fun _ => Except.ok ([], [])) none
      = (Except.ok ([], { page_count := 1, total_hits := 0, next_url := none }),
         [1]))
  ∧ (∀ (feed : Feed) (pr : Option Nat) (hits : List PriceHit) (meta : Meta)
      (tr : List Nat),
      scrape_prices (some goodUrl) (Except.ok "") (fun _ => true) feed pr
        = (Except.ok (hits, meta), tr) →
      meta.page_count ≤ pr.getD HARD_PAGE_CAP) := by
  refine ⟨?_, ?_, ?_, ?_⟩
  · intro l1 l2 l3 h1 h2 h3 hnd
    simp only [hitIds_append, List.nodup_append, List.disjoint_append_left]
      at hnd
    obtain ⟨⟨hl1, hl2, d12⟩, hl3, d13, d23⟩ := hnd
    have hred : scrape_prices (some goodUrl) (Except.ok "") (fun _ => true)
        (feed3 l1 l2 l3) none
        = scrape_go (feed3 l1 l2 l3) goodBase 200 0 1 [] [] none := by
      with_unfolding_all rfl
    have hreg1 : register_all l1 [] [] = ([] ++ l1, [] ++ hitIds l1, l1.length) :=
      register_all_fresh l1 [] [] hl1 (by simp)
    have e1 := scrape_go_step_nonempty (feed3 l1 l2 l3) goodBase 199 0 1 [] []
      l1 [] (by rfl) hreg1 h1
    have hreg2 : register_all l2 l1 (hitIds l1)
        = (l1 ++ l2, hitIds l1 ++ hitIds l2, l2.length) :=
      register_all_fresh l2 l1 (hitIds l1) hl2 (by
        intro s hs
        have : s ∉ hitIds l1 := fun hmem => d12 hmem hs
        simpa using this)
    have e2 := scrape_go_step_nonempty (feed3 l1 l2 l3) goodBase 198 1 2 l1
      (hitIds l1) l2 [] (by rfl) hreg2 h2
    have hreg3 : register_all l3 (l1 ++ l2) (hitIds l1 ++ hitIds l2)
        = ((l1 ++ l2) ++ l3, (hitIds l1 ++ hitIds l2) ++ hitIds l3, l3.length) :=
      register_all_fresh l3 (l1 ++ l2) (hitIds l1 ++ hitIds l2) hl3 (by
        intro s hs
        have hn1 : s ∉ hitIds l1 := fun hmem => d13 hmem hs
        have hn2 : s ∉ hitIds l2 := fun hmem => d23 hmem hs
        simp [hn1, hn2])
    have e3 := scrape_go_step_nonempty (feed3 l1 l2 l3) goodBase 197 2 3
      (l1 ++ l2) (hitIds l1 ++ hitIds l2) l3 [] (by rfl) hreg3 h3
    have e4 := scrape_go_step_empty (feed3 l1 l2 l3) goodBase 196 3 4
      ((l1 ++ l2) ++ l3) ((hitIds l1 ++ hitIds l2) ++ hitIds l3) (by rfl)
    norm_num [List.nil_append] at e1 e2 e3 e4
    rw [hred, e1, e2, e3, e4]
    simp [List.length_append, List.append_assoc]
    omega
  · intro l1 l2 h1 h2 hnd
    simp only [hitIds_append, List.nodup_append] at hnd
    obtain ⟨hl1, hl2, d12⟩ := hnd
    have hred : scrape_prices (some goodUrl) (Except.ok "") (fun _ => true)
        (feedUnlimited l1 l2) (some 2)
        = scrape_go (feedUnlimited l1 l2) goodBase 2 0 1 [] [] none := by
      with_unfolding_all rfl
    have hreg1 : register_all l1 [] [] = ([] ++ l1, [] ++ hitIds l1, l1.length) :=
      register_all_fresh l1 [] [] hl1 (by simp)
    have e1 := scrape_go_step_nonempty (feedUnlimited l1 l2) goodBase 1 0 1 [] []
      l1 [] (by rfl) hreg1 h1
    have hreg2 : register_all l2 l1 (hitIds l1)
        = (l1 ++ l2, hitIds l1 ++ hitIds l2, l2.length) :=
      register_all_fresh l2 l1 (hitIds l1) hl2 (by
        intro s hs
        have : s ∉ hitIds l1 := fun hmem => d12 hmem hs
        simpa using this)
    have e2 := scrape_go_step_nonempty (feedUnlimited l1 l2) goodBase 0 1 2 l1
      (hitIds l1) l2 [] (by rfl) hreg2 h2
    have e3 : ∀ ln : Option Url, scrape_go (feedUnlimited l1 l2) goodBase 0 2 3
        (l1 ++ l2) (hitIds l1 ++ hitIds l2) ln
        = (Except.ok (l1 ++ l2,
            { page_count := 2, total_hits := (l1 ++ l2).length,
              next_url := ln }), []) := fun ln => by
      simp only [scrape_go]
    norm_num [List.nil_append] at e1 e2
    rw [hred, e1, e2, e3]
    have hq : (some { goodBase with
        query := some (serializePairs (query_pairs (goodBase.query.getD "")
          ++ [("page", natToString 3)])) } : Option Url)
        = some (goodUrlPage 3) := by
      with_unfolding_all rfl
    rw [hq]
    simp [List.length_append]
  · with_unfolding_all rfl
  · intro feed pr hits meta tr h
    have hred : scrape_prices (some goodUrl) (Except.ok "") (fun _ => true)
        feed pr
        = scrape_go feed goodBase (pr.getD HARD_PAGE_CAP) 0 1 [] [] none := by
      with_unfolding_all rfl
    rw [hred] at h
    have := scrape_go_pages_le feed goodBase (pr.getD HARD_PAGE_CAP) 0 1 [] []
      none hits meta tr h
    omega

/-- Concrete instantiations of the termination scenarios. -/
theorem scrape_termination_spec_witness :
    scrape_prices (some goodUrl) (Except.ok "") (fun _ => true)
      (feed3 [mkHit "a"] [mkHit "b"] [mkHit "c"]) none
      = (Except.ok ([mkHit "a"] ++ [mkHit "b"] ++ [mkHit "c"],
          { page_count := 4, total_hits := 3, next_url := none }), [1, 2, 3, 4])
  ∧ scrape_prices (some goodUrl) (Except.ok "") (fun _ => true)
      (feedUnlimited [mkHit "a"] [mkHit "b"]) (some 2)
      = (Except.ok ([mkHit "a"] ++ [mkHit "b"],
          { page_count := 2, total_hits := 2,
            next_url := some (goodUrlPage 3) }), [1, 2]) :=
  ⟨scrape_termination_spec.1 [mkHit "a"] [mkHit "b"] [mkHit "c"]
    (by decide) (by decide) (by decide) (by decide),
   scrape_termination_spec.2.1 [mkHit "a"] [mkHit "b"]
    (by decide) (by decide) (by decide)⟩

/-- Claim C3's stop condition as stated is false: a page whose parsed
records are all duplicates of already-seen identifiers stops the run,
although it yielded a non-zero number of parsed records and the page
cap (200 by default) was not reached. -/
theorem scrape_stop_counterexample :
    scrape_prices (some goodUrl) (Except.ok "") (fun _ => true)
      (fun _ => Except.ok ([hitDup9], [hitDup9])) none
      = (Except.ok ([hitDup9],
          { page_count := 2, total_hits := 1, next_url := none }), [1, 2])
  ∧ ([hitDup9] : List PriceHit) ≠ []
  ∧ (2 : Nat) ≠ HARD_PAGE_CAP := by
  refine ⟨by with_unfolding_all rfl, by decide, by decide⟩

theorem retry_go_head (t : Nat → Profile → FetchResp) (fuel attempts : Nat)
    (lastErr : Option String) (profile : Profile) (h : fuel ≠ 0) :
    ((retry_go t fuel attempts lastErr profile).2)[0]? = some profile := by
  cases fuel with
  | zero => exact absurd rfl h
  | succ fuel =>
    simp only [retry_go]
    cases t attempts profile with
    | ok text =>
      dsimp only
      split <;> simp
    | err e =>
      dsimp only
      simp

theorem retry_go_length_le (t : Nat → Profile → FetchResp) :
    ∀ (fuel attempts : Nat) (lastErr : Option String) (profile : Profile),
      (retry_go t fuel attempts lastErr profile).2.length ≤ fuel := by
  intro fuel
  induction fuel with
  | zero => intro attempts lastErr profile; simp [retry_go]
  | succ fuel ih =>
    intro attempts lastErr profile
    simp only [retry_go]
    cases t attempts profile with
    | ok text =>
      dsimp only
      split
      · simp
      · simpa using ih (attempts + 1) lastErr (flip_profile profile)
    | err e =>
      simpa using ih (attempts + 1) (some e) profile

theorem retry_go_ok_valid (t : Nat → Profile → FetchResp) :
    ∀ (fuel attempts : Nat) (lastErr : Option String) (profile : Profile)
      (b : String),
      (retry_go t fuel attempts lastErr profile).1 = Except.ok b →
      body_valid b = true := by
  intro fuel
  induction fuel with
  | zero =>
    intro attempts lastErr profile b h
    simp [retry_go] at h
  | succ fuel ih =>
    intro attempts lastErr profile b h
    simp only [retry_go] at h
    cases ht : t attempts profile with
    | ok text =>
      rw [ht] at h
      dsimp only at h
      split at h
      · rename_i hv
        rw [Except.ok.injEq] at h
        rw [← h]
        exact hv
      · exact ih (attempts + 1) lastErr (flip_profile profile) b h
    | err e =>
      rw [ht] at h
      dsimp only at h
      exact ih (attempts + 1) (some e) profile b h

theorem retry_go_step (t : Nat → Profile → FetchResp) :
    ∀ (fuel attempts : Nat) (lastErr : Option String) (profile : Profile)
      (i : Nat) (q q' : Profile),
      ((retry_go t fuel attempts lastErr profile).2)[i]? = some q →
      ((retry_go t fuel attempts lastErr profile).2)[i + 1]? = some q' →
      (∃ text, t (attempts + i) q = FetchResp.ok text
        ∧ body_valid text = false ∧ q' = flip_profile q)
      ∨ (∃ e, t (attempts + i) q = FetchResp.err e ∧ q' = q) := by
  intro fuel
  induction fuel with
  | zero =>
    intro attempts lastErr profile i q q' hq hq'
    simp [retry_go] at hq
  | succ fuel ih =>
    intro attempts lastErr profile i q q' hq hq'
    simp only [retry_go] at hq hq'
    cases ht : t attempts profile with
    | ok text =>
      rw [ht] at hq hq'
      dsimp only at hq hq'
      by_cases hv : body_valid text = true
      · rw [if_pos hv] at hq hq'
        dsimp only at hq hq'
        cases i with
        | zero => simp at hq'
        | succ i => simp at hq
      · rw [if_neg hv] at hq hq'
        dsimp only at hq hq'
        cases i with
        | zero =>
          rw [List.getElem?_cons_zero] at hq
          rw [List.getElem?_cons_succ] at hq'
          rw [Option.some.injEq] at hq
          subst hq
          have hne : (retry_go t fuel (attempts + 1) lastErr
              (flip_profile profile)).2 ≠ [] := by
            intro hnil
            rw [hnil] at hq'
            simp at hq'
          have hfuel : fuel ≠ 0 := by
            intro h0
            subst h0
            simp [retry_go] at hne
          have hhead := retry_go_head t fuel (attempts + 1) lastErr
            (flip_profile profile) hfuel
          rw [hq'] at hhead
          rw [Option.some.injEq] at hhead
          left
          refine ⟨text, by simpa using ht, by simpa using hv, hhead⟩
        | succ i =>
          rw [List.getElem?_cons_succ] at hq hq'
          have := ih (attempts + 1) lastErr (flip_profile profile) i q q' hq hq'
          rw [show attempts + 1 + i = attempts + (i + 1) by omega] at this
          exact this
    | err e =>
      rw [ht] at hq hq'
      dsimp only at hq hq'
      cases i with
      | zero =>
        rw [List.getElem?_cons_zero] at hq
        rw [List.getElem?_cons_succ] at hq'
        rw [Option.some.injEq] at hq
        subst hq
        have hne : (retry_go t fuel (attempts + 1) (some e) profile).2 ≠ []
            := by
          intro hnil
          rw [hnil] at hq'
          simp at hq'
        have hfuel : fuel ≠ 0 := by
          intro h0
          subst h0
          simp [retry_go] at hne
        have hhead := retry_go_head t fuel (attempts + 1) (some e) profile
          hfuel
        rw [hq'] at hhead
        rw [Option.some.injEq] at hhead
        right
        exact ⟨e, by simpa using ht, hhead⟩
      | succ i =>
        rw [List.getElem?_cons_succ] at hq hq'
        have := ih (attempts + 1) (some e) profile i q q' hq hq'
        rw [show attempts + 1 + i = attempts + (i + 1) by omega] at this
        exact this

theorem retry_go_error (t : Nat → Profile → FetchResp) :
    ∀ (fuel attempts : Nat) (lastErr : Option String) (profile : Profile)
      (msg : String),
      (retry_go t fuel attempts lastErr profile).1 = Except.error msg →
      (retry_go t fuel attempts lastErr profile).2.length = fuel
      ∧ ((∃ i q, ((retry_go t fuel attempts lastErr profile).2)[i]? = some q
            ∧ t (attempts + i) q = FetchResp.err msg)
        ∨ msg = lastErr.getD "failed to fetch page after retries") := by
  intro fuel
  induction fuel with
  | zero =>
    intro attempts lastErr profile msg h
    simp only [retry_go] at h ⊢
    rw [Except.error.injEq] at h
    exact ⟨rfl, Or.inr h.symm⟩
  | succ fuel ih =>
    intro attempts lastErr profile msg h
    simp only [retry_go] at h ⊢
    cases ht : t attempts profile with
    | ok text =>
      rw [ht] at h
      dsimp only at h ⊢
      by_cases hv : body_valid text = true
      · rw [if_pos hv] at h
        simp at h
      · rw [if_neg hv] at h ⊢
        dsimp only at h ⊢
        obtain ⟨hlen, hdisj⟩ := ih (attempts + 1) lastErr (flip_profile profile)
          msg h
        refine ⟨by simpa using hlen, ?_⟩
        rcases hdisj with ⟨i, q, hq, he⟩ | hd
        · left
          refine ⟨i + 1, q, by simpa using hq, ?_⟩
          rw [show attempts + (i + 1) = attempts + 1 + i by omega]
          exact he
        · exact Or.inr hd
    | err e =>
      rw [ht] at h
      dsimp only at h ⊢
      obtain ⟨hlen, hdisj⟩ := ih (attempts + 1) (some e) profile msg h
      refine ⟨by simpa using hlen, ?_⟩
      rcases hdisj with ⟨i, q, hq, he⟩ | hd
      · left
        refine ⟨i + 1, q, by simpa using hq, ?_⟩
        rw [show attempts + (i + 1) = attempts + 1 + i by omega]
        exact he
      · left
        refine ⟨0, profile, by simp, ?_⟩
        rw [hd]
        simpa using ht

/-- Claim C1 (amended): a fetch makes between 1 and 5 attempts, the
first with the desktop profile; an attempt's response is accepted
exactly when its body passes the validity heuristic (length over 4000
bytes and the marker substring); after a heuristically rejected
response the profile flips before the next attempt, while after a
transport error the next attempt keeps the same profile; exhausting the
5 attempts returns a failure carrying the last transport error, or the
fixed heuristic reason when no transport error occurred. -/
theorem retry_fetch_html_spec (t : Nat → Profile → FetchResp) :
    1 ≤ (retry_fetch_html t).2.length
  ∧ (retry_fetch_html t).2.length ≤ 5
  ∧ ((retry_fetch_html t).2)[0]? = some Profile.Desktop
  ∧ (∀ b, (retry_fetch_html t).1 = Except.ok b → body_valid b = true)
  ∧ (∀ i q q', ((retry_fetch_html t).2)[i]? = some q →
      ((retry_fetch_html t).2)[i + 1]? = some q' →
      (∃ text, t i q = FetchResp.ok text ∧ body_valid text = false
        ∧ q' = flip_profile q)
      ∨ (∃ e, t i q = FetchResp.err e ∧ q' = q))
  ∧ (∀ msg, (retry_fetch_html t).1 = Except.error msg →
      (retry_fetch_html t).2.length = 5
      ∧ ((∃ i q, ((retry_fetch_html t).2)[i]? = some q
            ∧ t i q = FetchResp.err msg)
        ∨ msg = "failed to fetch page after retries")) := by
  refine ⟨?_, ?_, ?_, ?_, ?_, ?_⟩
  · have := retry_go_head t 5 0 none Profile.Desktop (by omega)
    have hne : (retry_fetch_html t).2 ≠ [] := by
      intro hnil
      unfold retry_fetch_html at hnil
      rw [hnil] at this
      simp at this
    have := List.length_pos.mpr hne
    omega
  · exact retry_go_length_le t 5 0 none Profile.Desktop
  · exact retry_go_head t 5 0 none Profile.Desktop (by omega)
  · intro b h
    exact retry_go_ok_valid t 5 0 none Profile.Desktop b h
  · intro i q q' hq hq'
    have := retry_go_step t 5 0 none Profile.Desktop i q q' hq hq'
    simpa using this
  · intro msg h
    have := retry_go_error t 5 0 none Profile.Desktop msg h
    simpa using this

/-- Concrete run of the retry engine against a transport that always
fails: five attempts, failure carrying the last transport error. -/
theorem retry_fetch_html_spec_witness :
    (retry_fetch_html (fun _ _ => FetchResp.err "conn reset")).2.length = 5
  ∧ ((∃ i q, ((retry_fetch_html
        (fun _ _ => FetchResp.err "conn reset")).2)[i]? = some q
        ∧ (fun (_ : Nat) (_ : Profile) => FetchResp.err "conn reset") i q
          = FetchResp.err "conn reset")
    ∨ ("conn reset" : String) = "failed to fetch page after retries") :=
  (retry_fetch_html_spec (fun _ _ => FetchResp.err "conn reset")).2.2.2.2.2
    "conn reset" (by with_unfolding_all rfl)

/-- Claim C1 as stated is false: it demands a profile flip after every
non-accepted attempt, transport errors included, but against a
transport that always errors the engine presents the desktop profile on
all five attempts, never flipping. -/
theorem retry_flip_counterexample :
    ¬ (∀ (t : Nat → Profile → FetchResp) (i : Nat) (q q' : Profile),
        ((retry_fetch_html t).2)[i]? = some q →
        ((retry_fetch_html t).2)[i + 1]? = some q' →
        q' = flip_profile q) := by
  intro hclaim
  have h1 : ((retry_fetch_html (fun _ _ => FetchResp.err "x")).2)[0]?
      = some Profile.Desktop := by decide
  have h2 : ((retry_fetch_html (fun _ _ => FetchResp.err "x")).2)[1]?
      = some Profile.Desktop := by decide
  have := hclaim (fun _ _ => FetchResp.err "x") 0 Profile.Desktop
    Profile.Desktop h1 h2
  simp [flip_profile] at this

theorem stream_go_shape (feed : Feed) (base : Url) :
    ∀ (fuel pages page total : Nat),
      ∃ evs term, stream_go feed base fuel pages page total = evs ++ [term]
      ∧ (∀ e ∈ evs, isPageEv e = true)
      ∧ evs.map pageNumOf = List.range' page evs.length
      ∧ isTerminalEv term = true := by
  intro fuel
  induction fuel with
  | zero =>
    intro pages page total
    exact ⟨[], SEvent.done pages total, rfl, by simp, by simp, rfl⟩
  | succ fuel ih =>
    intro pages page total
    simp only [stream_go, build_page_url]
    cases hf : feed page with
    | error e =>
      exact ⟨[], SEvent.error e, rfl, by simp, by simp, rfl⟩
    | ok pf =>
      obtain ⟨primary, fallback⟩ := pf
      dsimp only
      generalize (if primary.isEmpty = true then fallback else primary) = ph
      by_cases he : ph.isEmpty = true
      · rw [if_pos he]
        refine ⟨[SEvent.page page
            { base with query := some (serializePairs (query_pairs (base.query.getD "")
              ++ [("page", natToString page)])) }
            ph.length ph (total + ph.length)],
          SEvent.done (pages + 1) (total + ph.length), rfl,
          by simp [isPageEv], ?_, rfl⟩
        simp [pageNumOf]
      · rw [if_neg he]
        obtain ⟨evs2, term2, heq, hmem, hmap, hterm⟩ :=
          ih (pages + 1) (page + 1) (total + ph.length)
        refine ⟨SEvent.page page
            { base with query := some (serializePairs (query_pairs (base.query.getD "")
              ++ [("page", natToString page)])) }
            ph.length ph (total + ph.length) :: evs2, term2, ?_, ?_, ?_, hterm⟩
        · rw [heq]
          rfl
        · intro e he2
          rcases List.mem_cons.mp he2 with he3 | he3
          · rw [he3]; rfl
          · exact hmem e he3
        · simp only [List.map_cons, List.length_cons, pageNumOf]
          rw [List.range'_succ, hmap]

/-- Claim C6 (amended): once the validation prelude has passed, the
streaming event sequence is exactly one `start` event, then one `page`
event per visited page with consecutive (hence strictly increasing)
page numbers starting at the start page, then exactly one terminal
event, with nothing after it.  (A validation failure instead produces a
single terminal `error` event and no `start`; see the counterexample.)
-/
theorem stream_events_order :
    ∀ (u : Url) (host : String) (rf : Except String String)
      (m : String → Bool) (feed : Feed) (pr : Option Nat),
      u.host = some host → allowedHosts.contains host = true →
      m (robots_text rf) = true →
      ∃ evs term,
        scrape_stream (some u) rf m feed pr
          = SEvent.start (u.scheme ++ "://" ++ host) (pr.getD HARD_PAGE_CAP)
            :: (evs ++ [term])
        ∧ (∀ e ∈ evs, isPageEv e = true)
        ∧ evs.map pageNumOf = List.range' (normalize_pager u).2 evs.length
        ∧ isTerminalEv term = true := by
  intro u host rf m feed pr hh ha hm
  obtain ⟨evs, term, heq, hmem, hmap, hterm⟩ :=
    stream_go_shape feed (normalize_pager u).1 (pr.getD HARD_PAGE_CAP) 0
      (normalize_pager u).2 0
  refine ⟨evs, term, ?_, hmem, hmap, hterm⟩
  unfold scrape_stream
  dsimp only
  rw [hh]
  dsimp only
  rw [if_pos ha, if_pos hm]
  rcases hn : normalize_pager u with ⟨base, sp⟩
  have hbase : (normalize_pager u).1 = base := by rw [hn]
  have hsp : (normalize_pager u).2 = sp := by rw [hn]
  have hscheme : base.scheme = u.scheme := by
    rw [← hbase]
    rfl
  rw [hbase, hsp] at heq
  dsimp only
  rw [hscheme, heq]

/-- Concrete streaming run emitting `start`, one empty `page`, `done`.
-/
theorem stream_events_order_witness :
    ∃ evs term,
      scrape_stream (some goodUrl) (Except.ok "") (fun _ => true)
        (fun _ => Except.ok ([], [])) (some 1)
        = SEvent.start ("https" ++ "://" ++ "www.njuskalo.hr")
            ((some 1).getD HARD_PAGE_CAP) :: (evs ++ [term])
      ∧ (∀ e ∈ evs, isPageEv e = true)
      ∧ evs.map pageNumOf
          = List.range' (normalize_pager goodUrl).2 evs.length
      ∧ isTerminalEv term = true :=
  stream_events_order goodUrl "www.njuskalo.hr" (Except.ok "") (fun _ => true)
    (fun _ => Except.ok ([], [])) (some 1) rfl (by decide) rfl

/-- Claim C6 as stated is false: a streaming run whose start URL is on
a disallowed host emits a single terminal `error` event and no `start`
event at all, so the sequence does not begin with `start`. -/
theorem stream_start_counterexample :
    scrape_stream (some badUrl) (Except.ok "") (fun _ => true)
      (fun _ => Except.ok ([], [])) none
      = [SEvent.error "domain not in whitelist"]
  ∧ (∀ e ∈ scrape_stream (some badUrl) (Except.ok "") (fun _ => true)
      (fun _ => Except.ok ([], [])) none, isStartEv e = false) := by
  refine ⟨by decide, by decide⟩

/-- Claim C7: the compliance gate runs before any listing fetch.  An
unparsable start URL or one without a host fails with the invalid-URL
errors; a host outside the allow-list fails with the whitelist error,
in each case with an empty fetch trace, so no listing content was
fetched; a robots verdict against the URL fails with the robots error;
and a network failure while fetching robots.txt behaves exactly like an
empty robots document — with a permissive matcher the crawl proceeds
into the page loop. -/
theorem compliance_gate_spec :
    (∀ (rf : Except String String) (m : String → Bool) (feed : Feed)
       (pr : Option Nat),
       scrape_prices none rf m feed pr = (Except.error "invalid url", []))
  ∧ (∀ (u : Url) (rf : Except String String) (m : String → Bool) (feed : Feed)
       (pr : Option Nat), u.host = none →
       scrape_prices (some u) rf m feed pr
         = (Except.error "url has no host", []))
  ∧ (∀ (u : Url) (h : String) (rf : Except String String) (m : String → Bool)
       (feed : Feed) (pr : Option Nat), u.host = some h →
       allowedHosts.contains h = false →
       scrape_prices (some u) rf m feed pr
         = (Except.error "domain not in whitelist", []))
  ∧ (∀ (u : Url) (h : String) (rf : Except String String) (m : String → Bool)
       (feed : Feed) (pr : Option Nat), u.host = some h →
       allowedHosts.contains h = true → m (robots_text rf) = false →
       scrape_prices (some u) rf m feed pr
         = (Except.error "robots.txt disallows this URL", []))
  ∧ (∀ (u : Url) (e : String) (m : String → Bool) (feed : Feed)
       (pr : Option Nat),
       scrape_prices (some u) (Except.error e) m feed pr
         = scrape_prices (some u) (Except.ok "") m feed pr)
  ∧ (∀ (u : Url) (h : String) (e : String) (m : String → Bool) (feed : Feed)
       (pr : Option Nat), u.host = some h →
       allowedHosts.contains h = true → m "" = true →
       scrape_prices (some u) (Except.error e) m feed pr
         = scrape_go feed (normalize_pager u).1 (pr.getD HARD_PAGE_CAP) 0
             (normalize_pager u).2 [] [] none) := by
  refine ⟨?_, ?_, ?_, ?_, ?_, ?_⟩
  · intro rf m feed pr
    rfl
  · intro u rf m feed pr hh
    unfold scrape_prices
    dsimp only
    rw [hh]
  · intro u h rf m feed pr hh ha
    unfold scrape_prices
    dsimp only
    rw [hh]
    dsimp only
    rw [if_neg (by rw [ha]; exact Bool.false_ne_true)]
  · intro u h rf m feed pr hh ha hm
    unfold scrape_prices
    dsimp only
    rw [hh]
    dsimp only
    rw [if_pos ha, if_neg (by rw [hm]; exact Bool.false_ne_true)]
  · intro u e m feed pr
    rfl
  · intro u h e m feed pr hh ha hm
    unfold scrape_prices
    dsimp only
    rw [hh]
    dsimp only
    rw [if_pos ha]
    rw [show robots_text (Except.error e) = "" from rfl, if_pos hm]

/-- Concrete gate runs: a disallowed host fails before any fetch, and a
failed robots fetch proceeds into the loop. -/
theorem compliance_gate_spec_witness :
    scrape_prices (some badUrl) (Except.ok "") (fun _ => true)
      (fun _ => Except.ok ([], [])) none
      = (Except.error "domain not in whitelist", [])
  ∧ scrape_prices (some goodUrl) (Except.error "dns failure") (fun _ => true)
      (fun _ => Except.ok ([], [])) none
      = scrape_go (fun _ => Except.ok ([], []))
          (normalize_pager goodUrl).1 ((none : Option Nat).getD HARD_PAGE_CAP)
          0 (normalize_pager goodUrl).2 [] [] none :=
  ⟨compliance_gate_spec.2.2.1 badUrl "evil.example" (Except.ok "")
      (fun _ => true) (fun _ => Except.ok ([], [])) none rfl (by decide),
   compliance_gate_spec.2.2.2.2.2 goodUrl "www.njuskalo.hr" "dns failure"
      (fun _ => true) (fun _ => Except.ok ([], [])) none rfl (by decide) rfl⟩
